import Mathlib

/-!
Verification of the ai-arcade repository: URL validation and normalization
(`src/services/urlValidator.ts`), free-text sanitization (`src/utils/sanitization.ts`),
form validation (`src/utils/helpers.ts`, the `GameSubmission` component), and the
`GameStorage` persistence adapter (both the localStorage-backed and the
Supabase-backed implementation).

Strings are modelled as `List Char`.  JavaScript string builtins used by the source
(`trim`, `toLowerCase` on ASCII, `startsWith`, `includes`-style substring search,
regular-expression tests) are given explicit executable models below, each with a
comment stating exactly what is modelled.
-/

namespace AIArcade

/-- Whitespace set of JavaScript (`String.prototype.trim` and the regexp class `\s`):
tab, LF, VT, FF, CR, space, NBSP, and the Unicode space separators, line/paragraph
separators, NNBSP, MMSP, ideographic space and BOM, identified by code point. -/
def isJsWs (c : Char) : Bool :=
  c.toNat == 9 || c.toNat == 10 || c.toNat == 11 || c.toNat == 12 || c.toNat == 13 ||
  c.toNat == 32 || c.toNat == 160 || c.toNat == 5760 ||
  (8192 ≤ c.toNat && c.toNat ≤ 8202) || c.toNat == 8232 || c.toNat == 8233 ||
  c.toNat == 8239 || c.toNat == 8287 || c.toNat == 12288 || c.toNat == 65279

/-- ASCII fragment of JavaScript `String.prototype.toLowerCase` (maps `A`–`Z` to
`a`–`z`, leaves everything else unchanged).  All strings the source compares
case-insensitively (the unsafe-pattern denylist, tag filters) are ASCII, so the
non-ASCII case pairs of the full Unicode mapping are not modelled. -/
def lowerJS (c : Char) : Char :=
  if 65 ≤ c.toNat ∧ c.toNat ≤ 90 then Char.ofNat (c.toNat + 32) else c

/-- Model of `String.prototype.trim`: drop JavaScript whitespace from both ends. -/
def trimJS (l : List Char) : List Char :=
  ((l.dropWhile isJsWs).reverse.dropWhile isJsWs).reverse

/-- Model of `String.prototype.startsWith`: `pat` is a leading segment of the string. -/
def leadsWith : List Char → List Char → Bool
  | [], _ => true
  | _ :: _, [] => false
  | a :: ps, c :: cs => a == c && leadsWith ps cs

/-- Contiguous-substring test (the effect of an unanchored literal pattern such as
the denylist regexps `/javascript:/` running under `RegExp.prototype.test`). -/
def containsSub (pat : List Char) : List Char → Bool
  | [] => pat.isEmpty
  | c :: tl => leadsWith pat (c :: tl) || containsSub pat tl

/-- Denylist of `URLValidator.containsUnsafePatterns` (urlValidator.ts lines 114-122). -/
def unsafeSnippets : List (List Char) :=
  ["javascript:".toList, "data:".toList, "vbscript:".toList, "file:".toList,
   "<script".toList, "onclick".toList, "onerror".toList]

/-- Model of `URLValidator.containsUnsafePatterns`: each denylist pattern is tested
case-insensitively (`/…/i`) anywhere in the string; as the patterns are lowercase
ASCII this is substring search in the lowercased string. -/
def containsUnsafePatterns (l : List Char) : Bool :=
  unsafeSnippets.any (fun pat => containsSub pat (l.map lowerJS))

/-- Character class `[0-9]`. -/
def isAsciiDigitCh (c : Char) : Bool := 48 ≤ c.toNat && c.toNat ≤ 57

/-- Character class `[a-zA-Z]`. -/
def isAsciiLetterCh (c : Char) : Bool :=
  (65 ≤ c.toNat && c.toNat ≤ 90) || (97 ≤ c.toNat && c.toNat ≤ 122)

/-- Character class `[-a-zA-Z0-9@:%._\+~#=]` of `URL_PATTERNS.URL_REGEX`; the
symbols by code point: `-` 45, `@` 64, `:` 58, `%` 37, `.` 46, `_` 95, `+` 43,
`~` 126, `#` 35, `=` 61. -/
def hostClass (c : Char) : Bool :=
  isAsciiLetterCh c || isAsciiDigitCh c || c.toNat == 45 || c.toNat == 64 ||
  c.toNat == 58 || c.toNat == 37 || c.toNat == 46 || c.toNat == 95 || c.toNat == 43 ||
  c.toNat == 126 || c.toNat == 35 || c.toNat == 61

/-- Character class `[a-zA-Z0-9()]` of `URL_PATTERNS.URL_REGEX`; `(` is code
point 40 and `)` is 41. -/
def tldClass (c : Char) : Bool :=
  isAsciiLetterCh c || isAsciiDigitCh c || c.toNat == 40 || c.toNat == 41

/-- Character class `[-a-zA-Z0-9()@:%_\+.~#?&//=]` of `URL_PATTERNS.URL_REGEX`;
the symbols by code point: `-` 45, `(` 40, `)` 41, `@` 64, `:` 58, `%` 37, `_` 95,
`+` 43, `.` 46, `~` 126, `#` 35, `?` 63, `&` 38, `/` 47, `=` 61. -/
def tailClass (c : Char) : Bool :=
  isAsciiLetterCh c || isAsciiDigitCh c || c.toNat == 45 || c.toNat == 40 ||
  c.toNat == 41 || c.toNat == 64 || c.toNat == 58 || c.toNat == 37 || c.toNat == 95 ||
  c.toNat == 43 || c.toNat == 46 || c.toNat == 126 || c.toNat == 35 || c.toNat == 63 ||
  c.toNat == 38 || c.toNat == 47 || c.toNat == 61

/-- Word characters `[A-Za-z0-9_]` (`_` is code point 95), used by the regexp
word-boundary assertion `\b`. -/
def isWordCh (c : Char) : Bool := isAsciiLetterCh c || isAsciiDigitCh c || c.toNat == 95

/-- Word-character test on an optional character (`none` stands for the position
just before the start or just after the end of the string). -/
def isWordOpt : Option Char → Bool
  | none => false
  | some c => isWordCh c

/-- Items of a linear regular expression: a literal character, a character class
with repetition bounds (`lo` to `hi` occurrences), an unbounded class (`*`), an
optional literal string (`(…)?` over literals), and the word boundary `\b`. -/
inductive RItem where
  | lit : Char → RItem
  | cls : (Char → Bool) → Nat → Nat → RItem
  | star : (Char → Bool) → RItem
  | optStr : List Char → RItem
  | bnd : RItem

/-- Backtracking matcher for a fully anchored (`^…$`) sequence of `RItem`s:
`mtch items prev cs = true` iff some way of distributing `cs` over the items
consumes all of `cs`.  `prev` is the character just before `cs` (for `\b`).
A class with bounds tries every admissible count `k` of consumed characters
(all of which must satisfy the class, hence `k` is at most the length of the
matching prefix).  This is existential-match semantics, which coincides with
success of the JavaScript backtracking engine on such a pattern. -/
def mtch : List RItem → Option Char → List Char → Bool
  | [], _, cs => cs.isEmpty
  | .lit a :: rs, _, cs =>
    match cs with
    | [] => false
    | c :: tl => a == c && mtch rs (some c) tl
  | .cls p lo hi :: rs, prev, cs =>
    (List.range (min hi (cs.takeWhile p).length + 1)).any fun k =>
      decide (lo ≤ k) && mtch rs (if k = 0 then prev else cs.get? (k - 1)) (cs.drop k)
  | .star p :: rs, prev, cs =>
    (List.range ((cs.takeWhile p).length + 1)).any fun k =>
      mtch rs (if k = 0 then prev else cs.get? (k - 1)) (cs.drop k)
  | .optStr w :: rs, prev, cs =>
    (leadsWith w cs && mtch rs (w.getLast? <|> prev) (cs.drop w.length)) ||
    mtch rs prev cs
  | .bnd :: rs, prev, cs =>
    (isWordOpt prev != isWordOpt cs.head?) && mtch rs prev cs

/-- Compilation of `URL_PATTERNS.URL_REGEX`
`^https?:\/\/(www\.)?[-a-zA-Z0-9@:%._\+~#=]{1,256}\.[a-zA-Z0-9()]{1,6}\b([-a-zA-Z0-9()@:%_\+.~#?&//=]*)$`
into the item list of the matcher above, item by item. -/
def urlRegexItems : List RItem :=
  [.lit 'h', .lit 't', .lit 't', .lit 'p', .optStr ['s'], .lit ':', .lit '/', .lit '/',
   .optStr ['w', 'w', 'w', '.'], .cls hostClass 1 256, .lit '.', .cls tldClass 1 6, .bnd,
   .star tailClass]

/-- Model of `URL_PATTERNS.URL_REGEX.test` (the regexp is anchored on both sides). -/
def urlRegexTest (l : List Char) : Bool := mtch urlRegexItems none l

/-- Characters at which the authority (host) part of a URL ends:
`/` 47, `?` 63, `#` 35. -/
def isAuthStop (c : Char) : Bool := c.toNat == 47 || c.toNat == 63 || c.toNat == 35

/-- Parsed URL, as far as the source consumes it (`protocol` and `toString`).
`scheme` is `http` or `https`, `auth` the authority, `tail` path + query + fragment. -/
structure UrlObj where
  scheme : List Char
  auth : List Char
  tail : List Char
deriving DecidableEq, Repr

/-- Helper of `urlParse`: split `rest` (the text after `scheme://`) into authority
and tail; an empty authority makes the constructor throw for http(s) URLs. -/
def urlParseFrom (scheme rest : List Char) : Option UrlObj :=
  if (rest.takeWhile (fun c => !isAuthStop c)).isEmpty then none
  else some ⟨scheme, (rest.takeWhile (fun c => !isAuthStop c)).map lowerJS,
             rest.dropWhile (fun c => !isAuthStop c)⟩

/-- Model of the WHATWG `new URL` constructor (a browser builtin), restricted to the
strings `validate` feeds it, which always begin literally with `http://` or
`https://`.  Modelled behaviours: scheme recognition, splitting the authority from
path/query/fragment at the first `/`, `?` or `#`, rejection of an empty authority
(http(s) URLs need a host), and lowercasing of the authority.  Not modelled:
userinfo and port handling, IP literals, punycode and percent-encoding. -/
def urlParse (l : List Char) : Option UrlObj :=
  if leadsWith "http://".toList l then urlParseFrom "http".toList (l.drop 7)
  else if leadsWith "https://".toList l then urlParseFrom "https".toList (l.drop 8)
  else none

/-- Model of the `protocol` property of a parsed URL (scheme plus `:`). -/
def UrlObj.protocol (u : UrlObj) : List Char := u.scheme ++ [':']

/-- Serialization of the part after the authority: a URL whose path is empty
(no tail, or a tail beginning with `?` or `#`) gets the root path `/` inserted,
as the WHATWG serializer does for http(s) URLs. -/
def pathPart : List Char → List Char
  | [] => ['/']
  | c :: tl => if c == '/' then c :: tl else '/' :: c :: tl

/-- Model of `URL.prototype.toString`: reassemble the components. -/
def UrlObj.toStr (u : UrlObj) : List Char :=
  u.scheme ++ "://".toList ++ u.auth ++ pathPart u.tail

/-- Result record of `URLValidator.validate` (`ValidationResult` in types/game.ts). -/
structure ValidationResult where
  isValid : Bool
  error : Option String
  normalizedUrl : Option (List Char)
deriving DecidableEq, Repr

namespace URLValidator

/-- Protocol-defaulting step of `validate` (urlValidator.ts lines 22-25): if the
trimmed string starts with neither `http://` nor `https://`, prepend `https://`. -/
def addMissingScheme (l : List Char) : List Char :=
  if !leadsWith "http://".toList l && !leadsWith "https://".toList l then
    "https://".toList ++ l
  else l

/-- Model of `URLValidator.validate` (urlValidator.ts lines 10-64): trim; reject
empty; default the scheme; reject on regexp failure; parse with `new URL`
(parse failure is the `catch` branch); reject non-http(s) protocols; reject
unsafe patterns; on success return `urlObj.toString()`.  The source's local
variables `trimmedUrl` and `normalizedUrl` are inlined. -/
def validate (url : List Char) : ValidationResult :=
  if (trimJS url).isEmpty then
    { isValid := false, error := some "URL is required", normalizedUrl := none }
  else if !urlRegexTest (addMissingScheme (trimJS url)) then
    { isValid := false, error := some "Please enter a valid URL", normalizedUrl := none }
  else
    match urlParse (addMissingScheme (trimJS url)) with
    | none =>
      { isValid := false, error := some "Invalid URL format", normalizedUrl := none }
    | some urlObj =>
      if !(["http:".toList, "https:".toList].contains urlObj.protocol) then
        { isValid := false, error := some "Only HTTP and HTTPS URLs are allowed",
          normalizedUrl := none }
      else if containsUnsafePatterns (addMissingScheme (trimJS url)) then
        { isValid := false, error := some "URL contains potentially unsafe content",
          normalizedUrl := none }
      else
        { isValid := true, error := none, normalizedUrl := some urlObj.toStr }

/-- Model of `URLValidator.sanitize` (urlValidator.ts lines 71-74):
`result.normalizedUrl || url`, where the JavaScript `||` falls through both on a
missing `normalizedUrl` and on an empty one (empty strings are falsy). -/
def sanitize (url : List Char) : List Char :=
  match (validate url).normalizedUrl with
  | some n => if n.isEmpty then url else n
  | none => url

end URLValidator

/-! Sanitization utilities (src/utils/sanitization.ts). -/

/-- Control characters removed by `sanitizeText`: the regexp class
`[\u0000-\u001F\u007F-\u009F]`. -/
def isCtlCh (c : Char) : Bool := c.toNat ≤ 31 || (127 ≤ c.toNat && c.toNat ≤ 159)

/-- Whitespace-run collapsing of `replace(/\s+/g, ' ')`: every maximal run of
JavaScript whitespace becomes one space.  `inRun` records whether the previous
character was whitespace (that run has already emitted its space). -/
def collapseWsGo : Bool → List Char → List Char
  | _, [] => []
  | inRun, c :: tl =>
    if isJsWs c then
      if inRun then collapseWsGo true tl else ' ' :: collapseWsGo true tl
    else c :: collapseWsGo false tl

/-- Model of `sanitizeText` (sanitization.ts lines 29-34): trim, strip control
characters (a global replace with the empty string is a filter), collapse
whitespace runs to single spaces. -/
def sanitizeTextL (l : List Char) : List Char :=
  collapseWsGo false ((trimJS l).filter (fun c => !isCtlCh c))

/-- String-level wrapper of `sanitizeText`. -/
def sanitizeText (s : String) : String := ⟨sanitizeTextL s.data⟩

/-- Remainder of the string after the first case-insensitive `</script>`;
`none` when there is no closing tag. -/
def dropThroughClose : List Char → Option (List Char)
  | [] => none
  | c :: tl =>
    if leadsWith "</script>".toList ((c :: tl).map lowerJS) then some ((c :: tl).drop 9)
    else dropThroughClose tl

/-- Fuel-indexed worker for `scriptStrip`; the initial fuel `l.length` always
suffices because every step drops at least one character from the string. -/
def scriptStripF : Nat → List Char → List Char
  | _, [] => []
  | 0, l => l
  | fuel + 1, c :: tl =>
    if leadsWith "<script".toList ((c :: tl).map lowerJS) &&
        !isWordOpt ((c :: tl).drop 7).head? then
      match dropThroughClose ((c :: tl).drop 7) with
      | some rest => scriptStripF fuel rest
      | none => c :: scriptStripF fuel tl
    else c :: scriptStripF fuel tl

/-- Model of the `replace` in `sanitizeTitle` (sanitization.ts line 58): the
regexp `/<script\b[^<]*(?:(?!<\/script>)<[^<]*)*<\/script>/gi` deletes every
segment that starts at a case-insensitive `<script` followed by a word boundary
and extends through the first following case-insensitive `</script>`; an opening
tag with no close does not match, and scanning resumes at the next character. -/
def scriptStrip (l : List Char) : List Char := scriptStripF l.length l

/-- Model of `sanitizeTitle` (sanitization.ts lines 54-59). -/
def sanitizeTitle (s : String) : String := ⟨scriptStrip (sanitizeTextL s.data)⟩

/-- Model of `sanitizeDescription` (sanitization.ts lines 66-71): `sanitizeText`,
then split on newlines, trim each line, rejoin with newlines. -/
def sanitizeDescription (s : String) : String :=
  ⟨List.intercalate ['\n'] (((sanitizeTextL s.data).splitOn '\n').map trimJS)⟩

/-- Characters kept by `sanitizeAuthor`: the class `[a-zA-Z0-9\-_\s]`
(`-` 45, `_` 95, and JavaScript whitespace). -/
def authorAllowed (c : Char) : Bool :=
  isAsciiLetterCh c || isAsciiDigitCh c || c.toNat == 45 || c.toNat == 95 || isJsWs c

/-- Model of `sanitizeAuthor` (sanitization.ts lines 78-83): `sanitizeText`,
drop disallowed characters, trim again. -/
def sanitizeAuthor (s : String) : String :=
  ⟨trimJS ((sanitizeTextL s.data).filter authorAllowed)⟩

/-- Model of `Array.prototype.indexOf` restricted to how `sanitizeTags` uses it:
the index of the first occurrence (when the element is absent JavaScript yields
`-1`, this model `l.length`; the dedup filter below only ever looks up elements
of the array itself, where the two agree on the comparison made). -/
def idxOfStr : List String → String → Nat
  | [], _ => 0
  | a :: tl, x => if a == x then 0 else idxOfStr tl x + 1

/-- Index-aware filter, the shape of a JavaScript `filter((x, i, arr) => …)`. -/
def filterIdxGo {α : Type} (p : Nat → α → Bool) : Nat → List α → List α
  | _, [] => []
  | i, a :: tl => if p i a then a :: filterIdxGo p (i + 1) tl else filterIdxGo p (i + 1) tl

/-- The duplicate-removal filter of `sanitizeTags`:
`.filter((tag, index, arr) => arr.indexOf(tag) === index)`. -/
def jsDedupFirst (l : List String) : List String :=
  filterIdxGo (fun i a => idxOfStr l a == i) 0 l

/-- Model of `sanitizeTags` (sanitization.ts lines 41-47): sanitize each tag,
drop empties (`tag.length > 0`), remove duplicates keeping first occurrences,
and keep only the first 10 (`slice(0, 10)`). -/
def sanitizeTags (tags : List String) : List String :=
  (jsDedupFirst ((tags.map sanitizeText).filter (fun t => decide (0 < t.length)))).take 10

/-! Data model (src/types/game.ts) and the `GameStorage` persistence adapter. -/

/-- Moderation status of a game (`'active' | 'hidden'`). -/
inductive GStatus where
  | active
  | hidden
deriving DecidableEq, Repr

/-- The `Game` record (types/game.ts).  `submittedAt` is an ISO-8601 timestamp
string; for such strings chronological order coincides with lexicographic
string order, which is how timestamp comparisons are modelled.  `playCount` is
a non-negative integer (the code only initializes it to 0 and increments). -/
structure Game where
  id : String
  title : String
  url : String
  description : Option String
  author : Option String
  tags : List String
  submittedAt : String
  featured : Bool
  playCount : Nat
  status : GStatus
deriving DecidableEq, Repr

/-- String-level trim. -/
def jsTrimS (s : String) : String := ⟨trimJS s.data⟩

/-- String-level `toLowerCase` (ASCII fragment). -/
def lowerS (s : String) : String := ⟨s.data.map lowerJS⟩

/-- String-level `includes` (substring test). -/
def containsSubS (pat s : String) : Bool := containsSub pat.data s.data

/-- The localStorage-backed store.  The stored JSON value is modelled as the
list of games it encodes: `getAll`'s JSON round-trip is the identity on
well-formed stores; its defensive branches for a missing key or corrupted JSON
(returning `[]`) are outside the state space modelled here. -/
structure Store where
  games : List Game
deriving DecidableEq, Repr

/-- Outcome paired with the possibly updated store: the state-passing shape of
every mutating adapter operation.  A thrown `Error` is `Except.error` with its
message; the store component is whatever localStorage holds at that point. -/
abbrev StoreResult (α : Type) := Except String α × Store

/-- Model of the private `GameStorage.saveGames` (localStorage implementation,
part_006 lines 218-235): serialize and `localStorage.setItem`.  Whether the
write fits the quota is the environment's choice, modelled by the predicate
`fits`; `setItem` is atomic, so on failure nothing is stored and an error is
thrown (the quota warning only logs; the two catch branches differ only in the
message text, the generic one is used here). -/
def saveGames (fits : List Game → Bool) (gs : List Game) (σ : Store) : StoreResult Unit :=
  if fits gs then (.ok (), ⟨gs⟩) else (.error "Failed to save games to storage", σ)

/-- Input of `GameStorage.save`: `Omit<Game, 'id' | 'submittedAt' | 'playCount'>`. -/
structure SaveInput where
  title : String
  url : String
  description : Option String
  author : Option String
  tags : List String
  featured : Bool
  status : GStatus
deriving Repr

/-- Model of `GameStorage.save` (localStorage implementation, lines 12-37):
validate the URL, build the complete record — the fresh `uuid` and the current
time `now` are inputs of the model — append it to the collection, persist.
`tags.map(trim).filter(Boolean)` keeps the nonempty trimmed tags; the non-null
assertion `validation.normalizedUrl!` is `getD` with an unreachable default. -/
def save (fits : List Game → Bool) (inp : SaveInput) (uuid now : String)
    (σ : Store) : StoreResult Unit :=
  if !(URLValidator.validate inp.url.data).isValid then
    (.error ("Invalid URL: " ++ ((URLValidator.validate inp.url.data).error).getD ""), σ)
  else
    saveGames fits (σ.games ++
      [{ id := uuid, title := jsTrimS inp.title,
         url := ⟨((URLValidator.validate inp.url.data).normalizedUrl).getD []⟩,
         description := inp.description.map jsTrimS,
         author := inp.author.map jsTrimS,
         tags := (inp.tags.map jsTrimS).filter (fun t => decide (0 < t.length)),
         submittedAt := now, featured := false, playCount := 0, status := .active }]) σ

/-- Model of `GameStorage.getAll` (localStorage implementation, lines 43-56):
return the stored collection as it is, with no reordering. -/
def getAllL (σ : Store) : List Game := σ.games

/-- Model of `GameStorage.getById` (lines 63-66): the first record with the id,
or `null`. -/
def getById (id : String) (σ : Store) : Option Game :=
  (getAllL σ).find? (fun g => g.id == id)

/-- A `Partial<Game>`: every field optionally present. -/
structure GamePatch where
  id : Option String := none
  title : Option String := none
  url : Option String := none
  description : Option String := none
  author : Option String := none
  tags : Option (List String) := none
  submittedAt : Option String := none
  featured : Option Bool := none
  playCount : Option Nat := none
  status : Option GStatus := none
deriving Repr

/-- The object spread `{ ...game, ...updates }`: fields present in the patch
override the record's fields. -/
def applyPatch (g : Game) (p : GamePatch) : Game :=
  { id := p.id.getD g.id,
    title := p.title.getD g.title,
    url := p.url.getD g.url,
    description := p.description <|> g.description,
    author := p.author <|> g.author,
    tags := p.tags.getD g.tags,
    submittedAt := p.submittedAt.getD g.submittedAt,
    featured := p.featured.getD g.featured,
    playCount := p.playCount.getD g.playCount,
    status := p.status.getD g.status }

/-- The indexed assignment `games[gameIndex] = …` at the index found by
`findIndex`: replace the first matching element. -/
def setFirstMatch (q : Game → Bool) (f : Game → Game) : List Game → List Game
  | [] => []
  | g :: tl => if q g then f g :: tl else g :: setFirstMatch q f tl

/-- The `if (updates.url) …` block of `GameStorage.update`: when the patch
carries a truthy (nonempty) url, validate it and replace it by its normalized
form, or throw. -/
def resolvePatch (p : GamePatch) : Except String GamePatch :=
  match p.url with
  | none => .ok p
  | some u =>
    if decide (0 < u.length) then
      if !(URLValidator.validate u.data).isValid then
        .error ("Invalid URL: " ++ ((URLValidator.validate u.data).error).getD "")
      else .ok { p with url := some ⟨((URLValidator.validate u.data).normalizedUrl).getD []⟩ }
    else .ok p

/-- Model of `GameStorage.update` (localStorage implementation, lines 73-92):
not-found check (`findIndex === -1`), url re-validation, merge into the found
record, persist.  The presence check and the indexed assignment at the found
index are modelled as a first-match test and a first-match replacement, which
is what `findIndex` and `games[gameIndex] = …` compute. -/
def update (fits : List Game → Bool) (id : String) (p : GamePatch)
    (σ : Store) : StoreResult Unit :=
  if ((getAllL σ).find? (fun g => g.id == id)).isNone then (.error "Game not found", σ)
  else
    match resolvePatch p with
    | .error m => (.error m, σ)
    | .ok p2 =>
      saveGames fits
        (setFirstMatch (fun g => g.id == id) (fun g => applyPatch g p2) (getAllL σ)) σ

/-- Model of `GameStorage.delete` (lines 98-102): filter the id out and persist;
deleting an absent id persists the unchanged collection (a silent no-op). -/
def deleteOp (fits : List Game → Bool) (id : String) (σ : Store) : StoreResult Unit :=
  saveGames fits ((getAllL σ).filter (fun g => !(g.id == id))) σ

/-- A record as it appears in parsed import JSON: each field is either absent or
of the wrong type (`none`), or present with the expected type. -/
structure RawGame where
  id : Option String := none
  title : Option String := none
  url : Option String := none
  description : Option String := none
  author : Option String := none
  tags : Option (List String) := none
  submittedAt : Option String := none
  featured : Option Bool := none
  playCount : Option Nat := none
  status : Option String := none
deriving Repr

/-- Model of the private `GameStorage.isValidGame` structural check
(lines 242-254): all required fields present with the right type, and a legal
status string. -/
def isValidGame (r : RawGame) : Bool :=
  r.id.isSome && r.title.isSome && r.url.isSome && r.tags.isSome &&
  r.submittedAt.isSome && r.featured.isSome && r.playCount.isSome &&
  (r.status == some "active" || r.status == some "hidden")

/-- Conversion of a structurally valid raw record into a `Game` (the JavaScript
code stores the raw objects unchanged; the defaults below are never used for
records that pass `isValidGame`). -/
def rawToGame (r : RawGame) : Game :=
  { id := r.id.getD "", title := r.title.getD "", url := r.url.getD "",
    description := r.description, author := r.author, tags := r.tags.getD [],
    submittedAt := r.submittedAt.getD "", featured := r.featured.getD false,
    playCount := r.playCount.getD 0,
    status := if r.status == some "hidden" then .hidden else .active }

/-- Outcomes of `JSON.parse` plus the shape check on the import payload. -/
inductive ImportInput where
  | badJson
  | noGamesArray
  | gamesArr : List RawGame → ImportInput

/-- Model of `GameStorage.import` (localStorage implementation, lines 130-149):
reject unparseable JSON or a missing `games` array; validate every record
before any write; on success replace the whole stored collection; every error
is rethrown wrapped in `Import failed:`. -/
def importOp (fits : List Game → Bool) (inp : ImportInput) (σ : Store) :
    StoreResult Unit :=
  match inp with
  | .badJson => (.error "Import failed: Unknown error", σ)
  | .noGamesArray =>
    (.error "Import failed: Invalid import format: missing games array", σ)
  | .gamesArr l =>
    if l.all isValidGame then
      match saveGames fits (l.map rawToGame) σ with
      | (.ok _, σ2) => (.ok (), σ2)
      | (.error m, σ2) => (.error ("Import failed: " ++ m), σ2)
    else (.error "Import failed: Invalid game data in import", σ)

/-- Model of `GameStorage.incrementPlayCount` (lines 155-160): look the game
up; silently do nothing when absent; otherwise update with `playCount + 1`. -/
def incrementPlayCount (fits : List Game → Bool) (id : String) (σ : Store) :
    StoreResult Unit :=
  match getById id σ with
  | none => (.ok (), σ)
  | some g => update fits id { playCount := some (g.playCount + 1) } σ

/-- The status filter value (`'active' | 'hidden' | 'all'`). -/
inductive StatusFilter where
  | active
  | hidden
  | all
deriving DecidableEq, Repr

/-- Filter criteria of `GameStorage.getFiltered`; absent (`undefined`) fields
are `none`. -/
structure GameFilters where
  searchTerm : Option String := none
  tags : Option (List String) := none
  featured : Option Bool := none
  status : Option StatusFilter := none
deriving Repr

/-- Status guard of `getFiltered`: drop when a non-`all` status filter is
present and differs from the record's status. -/
def matchesStatus (fs : Option StatusFilter) (g : Game) : Bool :=
  match fs with
  | none => true
  | some .all => true
  | some .active => g.status == .active
  | some .hidden => g.status == .hidden

/-- Featured guard: drop when a featured filter is present and differs. -/
def matchesFeatured (ff : Option Bool) (g : Game) : Bool :=
  match ff with
  | none => true
  | some b => g.featured == b

/-- Search guard: case-insensitive substring match against title, description
and author (OR across the fields); a falsy (absent or empty) term passes
everything. -/
def matchesSearch (st : Option String) (g : Game) : Bool :=
  match st with
  | none => true
  | some s =>
    if s.length == 0 then true
    else
      containsSubS (lowerS s) (lowerS g.title) ||
      (match g.description with
       | some d => containsSubS (lowerS s) (lowerS d)
       | none => false) ||
      (match g.author with
       | some a => containsSubS (lowerS s) (lowerS a)
       | none => false)

/-- Tags guard of the localStorage `getFiltered` (lines 199-208): OR across the
requested tags; a record passes when one of its tags contains one requested tag
case-insensitively; an absent or empty request passes everything. -/
def matchesTagsL (ts : Option (List String)) (g : Game) : Bool :=
  match ts with
  | none => true
  | some tags =>
    if tags.isEmpty then true
    else tags.any (fun ft => g.tags.any (fun gt => containsSubS (lowerS ft) (lowerS gt)))

/-- Model of the localStorage `GameStorage.getFiltered` (lines 167-212). -/
def getFilteredL (σ : Store) (f : GameFilters) : List Game :=
  (getAllL σ).filter (fun g =>
    matchesStatus f.status g && matchesFeatured f.featured g &&
    matchesSearch f.searchTerm g && matchesTagsL f.tags g)

/-- Insertion of a game into a list sorted newest-first by `submittedAt`. -/
def insertDesc (g : Game) : List Game → List Game
  | [] => [g]
  | h :: tl =>
    if h.submittedAt ≤ g.submittedAt then g :: h :: tl else h :: insertDesc g tl

/-- Sorting newest-first by `submittedAt` (insertion sort). -/
def sortDescBySubmitted : List Game → List Game
  | [] => []
  | g :: tl => insertDesc g (sortDescBySubmitted tl)

/-- Modelled from the documented semantics of the Supabase query builder: the
Supabase `GameStorage.getAll` (part_006 lines 301-319) runs
`select * order by submitted_at descending` over the table rows; the
snake-case/camel-case transform round-trips to the identity in this typed
model. -/
def sbGetAll (rows : List Game) : List Game := sortDescBySubmitted rows

/-- Modelled from the documented semantics of PostgREST `.contains` on an array
column (PostgreSQL `@>`): a row matches iff its `tags` array contains every
requested tag, compared exactly (no substring matching, no case folding). -/
def sbContainsTags (tags : List String) (g : Game) : Bool :=
  tags.all (fun t => g.tags.contains t)

/-- Model of the Supabase `GameStorage.getFiltered` (lines 485-529): the status
and featured equality filters and the tags containment filter run in the
database, rows come back ordered newest-first, and the search filter then runs
client-side. -/
def sbGetFiltered (rows : List Game) (f : GameFilters) : List Game :=
  let dbRows := rows.filter (fun g =>
    matchesStatus f.status g && matchesFeatured f.featured g &&
    (match f.tags with
     | none => true
     | some ts => if ts.isEmpty then true else sbContainsTags ts g))
  match f.searchTerm with
  | none => sortDescBySubmitted dbRows
  | some s =>
    if s.length == 0 then sortDescBySubmitted dbRows
    else (sortDescBySubmitted dbRows).filter (matchesSearch (some s))

/-! The submission flow of the `GameSubmission` component. -/

/-- Form state of the `GameSubmission` component; the free-text fields are plain
strings, empty when untouched. -/
structure SubmissionForm where
  title : String
  url : String
  description : String
  author : String
  tags : List String
deriving Repr

/-- Outcome of a submission attempt as the component surfaces it: rejected with
field-level validation errors before any storage call, saved, or failed inside
the storage layer (the component then shows a generic failure message). -/
inductive SubmitOutcome where
  | rejected : List String → SubmitOutcome
  | saved : SubmitOutcome
  | failed : String → SubmitOutcome
deriving DecidableEq, Repr

/-- JavaScript `a || b` for an optional string (absent and empty are falsy). -/
def jsOrElse (a : Option String) (b : String) : String :=
  match a with
  | some s => if s == "" then b else s
  | none => b

/-- Model of `validateGameData` (helpers.ts lines 81-127), returning
`(isValid, errors)`; the `VALIDATION_LIMITS` are 100, 500, 50, 10 and 20.  The
truthiness guards `data.description && …` and `data.author && …` skip absent
and empty values. -/
def validateGameData (title url : String) (description author : Option String)
    (tags : List String) : Bool × List String :=
  let errors :=
    (if jsTrimS title == "" then ["Title is required"]
     else if decide (100 < title.length) then
       ["Title must be less than 100 characters"]
     else []) ++
    (if jsTrimS url == "" then ["URL is required"] else []) ++
    (match description with
     | some d =>
       if decide (0 < d.length) && decide (500 < d.length) then
         ["Description must be less than 500 characters"]
       else []
     | none => []) ++
    (match author with
     | some a =>
       if decide (0 < a.length) && decide (50 < a.length) then
         ["Author name must be less than 50 characters"]
       else []
     | none => []) ++
    (if decide (10 < tags.length) then ["Maximum 10 tags allowed"] else []) ++
    (tags.enum.filterMap (fun p =>
      if decide (20 < p.2.length) then
        some ("Tag " ++ toString (p.1 + 1) ++ " must be less than 20 characters")
      else none))
  (errors.isEmpty, errors)

/-- Model of the `handleSubmit` data path of the `GameSubmission` component:
sanitize the form fields; run `validateGameData` and stop with its errors when
invalid (nothing persisted); stop when the URL hook's live validation — which is
`URLValidator.validate` of the raw url field — has not succeeded; otherwise save
through the storage hook, surfacing a thrown storage error as a failure.  The
fresh id and timestamp are inputs of the model. -/
def submitGame (fits : List Game → Bool) (form : SubmissionForm) (uuid now : String)
    (σ : Store) : SubmitOutcome × Store :=
  let sanitized : SaveInput :=
    { title := sanitizeTitle form.title,
      url := jsTrimS form.url,
      description := if form.description == "" then none
                     else some (sanitizeDescription form.description),
      author := if form.author == "" then none else some (sanitizeAuthor form.author),
      tags := sanitizeTags form.tags,
      featured := false, status := .active }
  let validation := validateGameData sanitized.title sanitized.url sanitized.description
    sanitized.author sanitized.tags
  if !validation.1 then (.rejected validation.2, σ)
  else if !(URLValidator.validate form.url.data).isValid then
    (.rejected [jsOrElse (URLValidator.validate form.url.data).error
      "Please enter a valid URL"], σ)
  else
    match save fits sanitized uuid now σ with
    | (.ok _, σ2) => (.saved, σ2)
    | (.error m, σ2) => (.failed m, σ2)

/-- Specification-side duplicate removal keeping the first occurrence of each
element; `seen` accumulates the elements already emitted. -/
def dedupAcc : List String → List String → List String
  | _, [] => []
  | seen, a :: tl =>
    if a ∈ seen then dedupAcc seen tl else a :: dedupAcc (seen ++ [a]) tl

/-- Duplicate removal keeping first occurrences, stated independently of the
JavaScript `indexOf` idiom. -/
def dedupKeepFirst (l : List String) : List String := dedupAcc [] l

/-! Basic properties of the character-level models. -/

theorem toNat_ofNat_small {n : Nat} (h : n < 55296) : (Char.ofNat n).toNat = n := by
  have hv : n.isValidChar := Or.inl h
  simp only [Char.ofNat, dif_pos hv, Char.ofNatAux]
  rfl

theorem lowerJS_toNat (c : Char) (h : 65 ≤ c.toNat ∧ c.toNat ≤ 90) :
    (lowerJS c).toNat = c.toNat + 32 := by
  unfold lowerJS
  rw [if_pos h]
  exact toNat_ofNat_small (by omega)

theorem lowerJS_eq_self (c : Char) (h : ¬(65 ≤ c.toNat ∧ c.toNat ≤ 90)) : lowerJS c = c := by
  unfold lowerJS
  rw [if_neg h]

theorem lowerJS_idem (c : Char) : lowerJS (lowerJS c) = lowerJS c := by
  by_cases h : 65 ≤ c.toNat ∧ c.toNat ≤ 90
  · have h2 := lowerJS_toNat c h
    exact lowerJS_eq_self _ (by omega)
  · simp [lowerJS_eq_self c h]

theorem isJsWs_false_of_ascii {c : Char} (h1 : 33 ≤ c.toNat) (h2 : c.toNat ≤ 126) :
    isJsWs c = false := by
  unfold isJsWs
  simp only [Bool.or_eq_false_iff, Bool.and_eq_false_iff, beq_eq_false_iff_ne, ne_eq,
    decide_eq_false_iff_not, not_le]
  omega

theorem isJsWs_lowerJS (c : Char) : isJsWs (lowerJS c) = isJsWs c := by
  by_cases h : 65 ≤ c.toNat ∧ c.toNat ≤ 90
  · have h2 := lowerJS_toNat c h
    rw [isJsWs_false_of_ascii (c := lowerJS c) (by omega) (by omega),
      isJsWs_false_of_ascii (by omega) (by omega)]
  · rw [lowerJS_eq_self c h]

/-! Properties of `leadsWith` and `containsSub`. -/

theorem leadsWith_iff {p l : List Char} : leadsWith p l = true ↔ ∃ t, l = p ++ t := by
  induction p generalizing l with
  | nil => simp [leadsWith]
  | cons a ps ih =>
    cases l with
    | nil => simp [leadsWith]
    | cons c cs =>
      simp only [leadsWith, Bool.and_eq_true, beq_iff_eq, ih, List.cons_append,
        List.cons.injEq]
      constructor
      · rintro ⟨rfl, t, rfl⟩
        exact ⟨t, rfl, rfl⟩
      · rintro ⟨t, rfl, rfl⟩
        exact ⟨rfl, t, rfl⟩

theorem leadsWith_append (p t : List Char) : leadsWith p (p ++ t) = true :=
  leadsWith_iff.mpr ⟨t, rfl⟩

theorem containsSub_iff {p l : List Char} : containsSub p l = true ↔ ∃ s t, l = s ++ p ++ t := by
  induction l with
  | nil =>
    simp only [containsSub, List.isEmpty_iff]
    constructor
    · rintro rfl
      exact ⟨[], [], rfl⟩
    · rintro ⟨s, t, h⟩
      rcases List.append_eq_nil.mp (List.append_eq_nil.mp h.symm).1 with ⟨_, h2⟩
      exact h2
  | cons c cs ih =>
    simp only [containsSub, Bool.or_eq_true, leadsWith_iff, ih]
    constructor
    · rintro (⟨t, ht⟩ | ⟨s, t, h⟩)
      · exact ⟨[], t, by simp [ht]⟩
      · exact ⟨c :: s, t, by simp [h]⟩
    · rintro ⟨s, t, h⟩
      cases s with
      | nil =>
        exact Or.inl ⟨t, by simpa using h⟩
      | cons x xs =>
        simp only [List.cons_append, List.cons.injEq] at h
        exact Or.inr ⟨xs, t, h.2⟩

theorem containsSub_append_left {p l : List Char} (s : List Char)
    (h : containsSub p l = true) : containsSub p (s ++ l) = true := by
  rcases containsSub_iff.mp h with ⟨a, b, rfl⟩
  exact containsSub_iff.mpr ⟨s ++ a, b, by simp⟩

theorem containsSub_dropWhile {p l : List Char} (q : Char → Bool) (hne : p ≠ [])
    (hp : ∀ c ∈ p, q c = false) (h : containsSub p l = true) :
    containsSub p (l.dropWhile q) = true := by
  induction l with
  | nil => simpa using h
  | cons c cs ih =>
    rw [List.dropWhile_cons]
    by_cases hq : q c = true
    · rw [if_pos hq]
      apply ih
      cases p with
      | nil => exact absurd rfl hne
      | cons p0 ps =>
        simp only [containsSub, Bool.or_eq_true] at h
        rcases h with h | h
        · exfalso
          simp only [leadsWith, Bool.and_eq_true, beq_iff_eq] at h
          have := hp p0 (List.mem_cons_self _ _)
          rw [h.1, hq] at this
          simp at this
        · exact h
    · rw [if_neg hq]
      exact h

theorem containsSub_reverse {p l : List Char} :
    containsSub p.reverse l.reverse = containsSub p l := by
  have key : ∀ p l : List Char, containsSub p l = true →
      containsSub p.reverse l.reverse = true := by
    intro p l h
    rcases containsSub_iff.mp h with ⟨s, t, rfl⟩
    exact containsSub_iff.mpr ⟨t.reverse, s.reverse, by simp⟩
  by_cases h : containsSub p l = true
  · rw [h, key p l h]
  · by_cases h2 : containsSub p.reverse l.reverse = true
    · exfalso
      apply h
      have := key _ _ h2
      simpa using this
    · simp only [Bool.not_eq_true] at h h2
      rw [h, h2]

theorem containsSub_trimJS {p l : List Char} (hne : p ≠ [])
    (hp : ∀ c ∈ p, isJsWs c = false) (h : containsSub p l = true) :
    containsSub p (trimJS l) = true := by
  unfold trimJS
  have h1 := containsSub_dropWhile isJsWs hne hp h
  have h2 : containsSub p.reverse (l.dropWhile isJsWs).reverse = true := by
    rw [containsSub_reverse]
    exact h1
  have h3 := containsSub_dropWhile isJsWs (by simpa using hne)
    (fun c hc => hp c (List.mem_reverse.mp hc)) h2
  have h4 := containsSub_reverse (p := p.reverse)
    (l := (l.dropWhile isJsWs).reverse.dropWhile isJsWs)
  rw [List.reverse_reverse] at h4
  rw [h4]
  exact h3

theorem map_lowerJS_trimJS (l : List Char) :
    (trimJS l).map lowerJS = trimJS (l.map lowerJS) := by
  have hcomp : isJsWs ∘ lowerJS = isJsWs := funext isJsWs_lowerJS
  unfold trimJS
  simp only [List.dropWhile_map, hcomp, List.map_reverse]
  conv_rhs => rw [← List.map_reverse, List.dropWhile_map, hcomp]

/-! Inversion of a successful `validate` run. -/

theorem validate_success_parts {url : List Char}
    (h : (URLValidator.validate url).isValid = true) :
    (trimJS url).isEmpty = false ∧
    urlRegexTest (URLValidator.addMissingScheme (trimJS url)) = true ∧
    containsUnsafePatterns (URLValidator.addMissingScheme (trimJS url)) = false ∧
    ∃ u, urlParse (URLValidator.addMissingScheme (trimJS url)) = some u ∧
      (URLValidator.validate url).normalizedUrl = some u.toStr := by
  unfold URLValidator.validate at h ⊢
  split at h
  · simp at h
  · split at h
    · simp at h
    · rename_i hemp hreg
      split at h
      · simp at h
      · rename_i u hu
        split at h
        · simp at h
        · split at h
          · simp at h
          · rename_i hproto hunsafe
            refine ⟨by simpa using hemp, by simpa using hreg, by simpa using hunsafe,
              u, hu, ?_⟩
            rw [if_neg hemp, if_neg hreg, if_neg hproto, if_neg hunsafe]

theorem unsafeSnippets_spec : ∀ p ∈ unsafeSnippets, p ≠ [] ∧ ∀ c ∈ p, isJsWs c = false := by
  decide

/-- C1: for every input string that contains any denylisted snippet
(`javascript:`, `data:`, `vbscript:`, `file:`, `<script`, `onclick`, `onerror`,
case-insensitively) anywhere in the text, `URLValidator.validate` returns a
rejection (`isValid = false`). -/
theorem claim_C1_unsafe_rejected (url : List Char)
    (h : containsUnsafePatterns url = true) :
    (URLValidator.validate url).isValid = false := by
  cases hv : (URLValidator.validate url).isValid with
  | false => rfl
  | true =>
    exfalso
    obtain ⟨-, -, hunsafe, -⟩ := validate_success_parts hv
    rw [containsUnsafePatterns, List.any_eq_true] at h
    obtain ⟨pat, hmem, hsub⟩ := h
    obtain ⟨hpne, hpws⟩ := unsafeSnippets_spec pat hmem
    have h1 : containsSub pat (trimJS (url.map lowerJS)) = true :=
      containsSub_trimJS hpne hpws hsub
    have h2 : containsSub pat ((trimJS url).map lowerJS) = true := by
      rw [map_lowerJS_trimJS]
      exact h1
    have h3 : containsSub pat
        ((URLValidator.addMissingScheme (trimJS url)).map lowerJS) = true := by
      unfold URLValidator.addMissingScheme
      split
      · rw [List.map_append]
        exact containsSub_append_left _ h2
      · exact h2
    have h4 : containsUnsafePatterns (URLValidator.addMissingScheme (trimJS url)) = true := by
      rw [containsUnsafePatterns, List.any_eq_true]
      exact ⟨pat, hmem, h3⟩
    rw [ hunsafe] at h4
    simp at h4

/-- Witness for C1: the claim's example `https://good.com/?x=javascript:alert(1)`
contains a denylisted snippet, and is rejected even though its scheme is https. -/
theorem claim_C1_witness :
    containsUnsafePatterns "https://good.com/?x=javascript:alert(1)".toList = true ∧
    (URLValidator.validate "https://good.com/?x=javascript:alert(1)".toList).isValid
      = false :=
  ⟨by decide, claim_C1_unsafe_rejected _ (by decide)⟩

/-! Characters consumed by a successful match all satisfy the item classes. -/

/-- Constraint that every character an item can consume satisfies `P`. -/
def ItemOK (P : Char → Prop) : RItem → Prop
  | .lit a => P a
  | .cls p _ _ => ∀ c, p c = true → P c
  | .star p => ∀ c, p c = true → P c
  | .optStr w => ∀ c ∈ w, P c
  | .bnd => True

theorem take_sat_of_le_takeWhile {p : Char → Bool} {l : List Char} {k : Nat}
    (hk : k ≤ (l.takeWhile p).length) : ∀ c ∈ l.take k, p c = true := by
  induction l generalizing k with
  | nil => simp
  | cons x tl ih =>
    cases hx : p x with
    | true =>
      cases k with
      | zero => simp
      | succ j =>
        intro c hc
        rw [List.takeWhile_cons_of_pos hx] at hk
        simp only [List.length_cons, Nat.succ_le_succ_iff] at hk
        rw [List.take_succ_cons] at hc
        rcases List.mem_cons.mp hc with rfl | hc2
        · exact hx
        · exact ih hk c hc2
    | false =>
      rw [List.takeWhile_cons_of_neg (by simp [hx])] at hk
      simp only [List.length_nil, Nat.le_zero] at hk
      subst hk
      simp

theorem mtch_chars {P : Char → Prop} {items : List RItem}
    (hok : ∀ it ∈ items, ItemOK P it) :
    ∀ {prev : Option Char} {cs : List Char}, mtch items prev cs = true → ∀ c ∈ cs, P c := by
  induction items with
  | nil =>
    intro prev cs h c hc
    simp only [mtch, List.isEmpty_iff] at h
    subst h
    simp at hc
  | cons it rs ih =>
    have hokr : ∀ i ∈ rs, ItemOK P i := fun i hi => hok i (List.mem_cons_of_mem _ hi)
    have ihr : ∀ {prev : Option Char} {cs : List Char},
        mtch rs prev cs = true → ∀ c ∈ cs, P c := ih hokr
    intro prev cs h c hc
    cases it with
    | lit a =>
      cases cs with
      | nil => simp [mtch] at h
      | cons x tl =>
        simp only [mtch, Bool.and_eq_true, beq_iff_eq] at h
        obtain ⟨rfl, h2⟩ := h
        rcases List.mem_cons.mp hc with rfl | hc2
        · exact (hok _ (List.mem_cons_self _ _) : ItemOK P (.lit c))
        · exact ihr h2 c hc2
    | cls p lo hi =>
      simp only [mtch, List.any_eq_true, List.mem_range, Bool.and_eq_true,
        decide_eq_true_eq] at h
      obtain ⟨k, hk, -, h2⟩ := h
      have hsat := take_sat_of_le_takeWhile (p := p) (l := cs) (k := k) (by omega)
      rw [← List.take_append_drop k cs] at hc
      rcases List.mem_append.mp hc with hc1 | hc2
      · exact (hok _ (List.mem_cons_self _ _) : ∀ c, p c = true → P c) c (hsat c hc1)
      · exact ihr h2 c hc2
    | star p =>
      simp only [mtch, List.any_eq_true, List.mem_range] at h
      obtain ⟨k, hk, h2⟩ := h
      have hsat := take_sat_of_le_takeWhile (p := p) (l := cs) (k := k) (by omega)
      rw [← List.take_append_drop k cs] at hc
      rcases List.mem_append.mp hc with hc1 | hc2
      · exact (hok _ (List.mem_cons_self _ _) : ∀ c, p c = true → P c) c (hsat c hc1)
      · exact ihr h2 c hc2
    | optStr w =>
      simp only [mtch, Bool.or_eq_true, Bool.and_eq_true] at h
      rcases h with ⟨hlw, h2⟩ | h2
      · obtain ⟨t, rfl⟩ := leadsWith_iff.mp hlw
        rw [List.drop_left] at h2
        rcases List.mem_append.mp hc with hc1 | hc2
        · exact (hok _ (List.mem_cons_self _ _) : ∀ c ∈ w, P c) c hc1
        · exact ihr h2 c hc2
      · exact ihr h2 c hc
    | bnd =>
      simp only [mtch, Bool.and_eq_true] at h
      exact ihr h.2 c hc

theorem hostClass_ascii {c : Char} (h : hostClass c = true) :
    33 ≤ c.toNat ∧ c.toNat ≤ 126 := by
  unfold hostClass isAsciiLetterCh isAsciiDigitCh at h
  simp only [Bool.or_eq_true, Bool.and_eq_true, decide_eq_true_eq, beq_iff_eq] at h
  omega

theorem tldClass_ascii {c : Char} (h : tldClass c = true) :
    33 ≤ c.toNat ∧ c.toNat ≤ 126 := by
  unfold tldClass isAsciiLetterCh isAsciiDigitCh at h
  simp only [Bool.or_eq_true, Bool.and_eq_true, decide_eq_true_eq, beq_iff_eq] at h
  omega

theorem tailClass_ascii {c : Char} (h : tailClass c = true) :
    33 ≤ c.toNat ∧ c.toNat ≤ 126 := by
  unfold tailClass isAsciiLetterCh isAsciiDigitCh at h
  simp only [Bool.or_eq_true, Bool.and_eq_true, decide_eq_true_eq, beq_iff_eq] at h
  omega

theorem urlRegexItems_nonWs :
    ∀ it ∈ urlRegexItems, ItemOK (fun c => isJsWs c = false) it := by
  intro it hit
  simp only [urlRegexItems, List.mem_cons, List.not_mem_nil, or_false] at hit
  rcases hit with rfl | rfl | rfl | rfl | rfl | rfl | rfl | rfl | rfl | rfl | rfl | rfl |
    rfl | rfl
  · exact (by decide : isJsWs 'h' = false)
  · exact (by decide : isJsWs 't' = false)
  · exact (by decide : isJsWs 't' = false)
  · exact (by decide : isJsWs 'p' = false)
  · exact (by decide : ∀ c ∈ ['s'], isJsWs c = false)
  · exact (by decide : isJsWs ':' = false)
  · exact (by decide : isJsWs '/' = false)
  · exact (by decide : isJsWs '/' = false)
  · exact (by decide : ∀ c ∈ ['w', 'w', 'w', '.'], isJsWs c = false)
  · intro c hc
    exact isJsWs_false_of_ascii (hostClass_ascii hc).1 (hostClass_ascii hc).2
  · exact (by decide : isJsWs '.' = false)
  · intro c hc
    exact isJsWs_false_of_ascii (tldClass_ascii hc).1 (tldClass_ascii hc).2
  · exact trivial
  · intro c hc
    exact isJsWs_false_of_ascii (tailClass_ascii hc).1 (tailClass_ascii hc).2

theorem regex_chars_nonWs {n : List Char} (h : urlRegexTest n = true) :
    ∀ c ∈ n, isJsWs c = false := by
  unfold urlRegexTest at h
  exact mtch_chars urlRegexItems_nonWs h

/-! Structure of a successful `urlParse`. -/

theorem urlParse_cases {n : List Char} {u : UrlObj} (h : urlParse n = some u) :
    ∃ rest, ((u.scheme = "http".toList ∧ n = "http://".toList ++ rest) ∨
             (u.scheme = "https".toList ∧ n = "https://".toList ++ rest)) ∧
      u.auth = (rest.takeWhile (fun c => !isAuthStop c)).map lowerJS ∧
      u.tail = rest.dropWhile (fun c => !isAuthStop c) ∧
      (rest.takeWhile (fun c => !isAuthStop c)).isEmpty = false := by
  unfold urlParse at h
  split at h
  · rename_i hlw
    obtain ⟨t, rfl⟩ := leadsWith_iff.mp hlw
    rw [show List.drop 7 ("http://".toList ++ t) = t from rfl] at h
    unfold urlParseFrom at h
    split at h
    · exact absurd h (by simp)
    · rename_i hne
      refine ⟨t, Or.inl ⟨?_, rfl⟩, ?_, ?_, by simpa using hne⟩ <;>
        · injection h with h2
          rw [← h2]
  · split at h
    · rename_i hlw
      obtain ⟨t, rfl⟩ := leadsWith_iff.mp hlw
      rw [show List.drop 8 ("https://".toList ++ t) = t from rfl] at h
      unfold urlParseFrom at h
      split at h
      · exact absurd h (by simp)
      · rename_i hne
        refine ⟨t, Or.inr ⟨?_, rfl⟩, ?_, ?_, by simpa using hne⟩ <;>
          · injection h with h2
            rw [← h2]
    · exact absurd h (by simp)

/-- C3: every accepted URL normalizes to a string beginning with `http://` or
`https://`; and when the (trimmed) input starts with neither scheme, the
validator prepends `https://`, so the normalized result uses https. -/
theorem claim_C3_scheme (url o : List Char)
    (h : (URLValidator.validate url).isValid = true)
    (ho : (URLValidator.validate url).normalizedUrl = some o) :
    (leadsWith "http://".toList o || leadsWith "https://".toList o) = true ∧
    (leadsWith "http://".toList (trimJS url) = false →
     leadsWith "https://".toList (trimJS url) = false →
     leadsWith "https://".toList o = true) := by
  obtain ⟨-, -, -, u, hu, ho'⟩ := validate_success_parts h
  rw [ho] at ho'
  obtain rfl : o = u.toStr := by injection ho'
  obtain ⟨rest, hscheme, -, -, -⟩ := urlParse_cases hu
  constructor
  · rcases hscheme with ⟨hs, -⟩ | ⟨hs, -⟩
    · apply Bool.or_eq_true_iff.mpr
      left
      rw [UrlObj.toStr, hs]
      rw [show ("http".toList ++ "://".toList : List Char) = "http://".toList ++ [] by rfl]
      simp only [List.append_nil, List.append_assoc]
      exact leadsWith_append _ _
    · apply Bool.or_eq_true_iff.mpr
      right
      rw [UrlObj.toStr, hs]
      rw [show ("https".toList ++ "://".toList : List Char) = "https://".toList ++ [] by rfl]
      simp only [List.append_nil, List.append_assoc]
      exact leadsWith_append _ _
  · intro h1 h2
    have hadd : URLValidator.addMissingScheme (trimJS url) =
        "https://".toList ++ trimJS url := by
      unfold URLValidator.addMissingScheme
      rw [if_pos]
      rw [h1, h2]
      rfl
    rcases hscheme with ⟨hs, hn⟩ | ⟨hs, -⟩
    · exfalso
      have heq : "https://".toList ++ trimJS url = "http://".toList ++ rest := by
        rw [← hadd, hn]
      have : leadsWith "http://".toList ("https://".toList ++ trimJS url) = true := by
        rw [heq]
        exact leadsWith_append _ _
      rw [show leadsWith "http://".toList ("https://".toList ++ trimJS url) = false
        from rfl] at this
      exact Bool.false_ne_true this
    · rw [UrlObj.toStr, hs]
      rw [show ("https".toList ++ "://".toList : List Char) = "https://".toList ++ [] by rfl]
      simp only [List.append_nil, List.append_assoc]
      exact leadsWith_append _ _

/-! Generic list facts used below. -/

theorem mem_of_mem_takeWhile {α : Type} {q : α → Bool} {l : List α} {a : α}
    (h : a ∈ l.takeWhile q) : a ∈ l := by
  induction l with
  | nil => simp at h
  | cons x tl ih =>
    rw [List.takeWhile_cons] at h
    split at h
    · rcases List.mem_cons.mp h with rfl | h2
      · exact List.mem_cons_self _ _
      · exact List.mem_cons_of_mem _ (ih h2)
    · simp at h

theorem sat_of_mem_takeWhile {α : Type} {q : α → Bool} {l : List α} {a : α}
    (h : a ∈ l.takeWhile q) : q a = true := by
  induction l with
  | nil => simp at h
  | cons x tl ih =>
    rw [List.takeWhile_cons] at h
    split at h
    · rename_i hx
      rcases List.mem_cons.mp h with rfl | h2
      · exact hx
      · exact ih h2
    · simp at h

theorem mem_of_mem_dropWhile {α : Type} {q : α → Bool} {l : List α} {a : α}
    (h : a ∈ l.dropWhile q) : a ∈ l := by
  induction l with
  | nil => simp at h
  | cons x tl ih =>
    rw [List.dropWhile_cons] at h
    split at h
    · exact List.mem_cons_of_mem _ (ih h)
    · exact h

theorem takeWhile_append_of_all {α : Type} {q : α → Bool} {a : List α} (b : List α)
    (h : ∀ c ∈ a, q c = true) : (a ++ b).takeWhile q = a ++ b.takeWhile q := by
  induction a with
  | nil => simp
  | cons x tl ih =>
    rw [List.cons_append, List.takeWhile_cons_of_pos (h x (List.mem_cons_self _ _)),
      List.cons_append, ih (fun c hc => h c (List.mem_cons_of_mem _ hc))]

theorem dropWhile_append_of_all {α : Type} {q : α → Bool} {a : List α} (b : List α)
    (h : ∀ c ∈ a, q c = true) : (a ++ b).dropWhile q = b.dropWhile q := by
  induction a with
  | nil => simp
  | cons x tl ih =>
    rw [List.cons_append, List.dropWhile_cons_of_pos (h x (List.mem_cons_self _ _)),
      ih (fun c hc => h c (List.mem_cons_of_mem _ hc))]

theorem dropWhile_eq_self_of_false {q : Char → Bool} {l : List Char}
    (h : ∀ c ∈ l, q c = false) : l.dropWhile q = l := by
  cases l with
  | nil => rfl
  | cons x tl =>
    rw [List.dropWhile_cons, h x (List.mem_cons_self _ _)]
    simp

theorem trimJS_eq_self {l : List Char} (h : ∀ c ∈ l, isJsWs c = false) : trimJS l = l := by
  unfold trimJS
  rw [dropWhile_eq_self_of_false h,
    dropWhile_eq_self_of_false (fun c hc => h c (List.mem_reverse.mp hc)),
    List.reverse_reverse]

theorem isAuthStop_lowerJS (c : Char) : isAuthStop (lowerJS c) = isAuthStop c := by
  by_cases h : 65 ≤ c.toNat ∧ c.toNat ≤ 90
  · have h2 := lowerJS_toNat c h
    have e1 : isAuthStop (lowerJS c) = false := by
      unfold isAuthStop
      rw [h2]
      simp only [Bool.or_eq_false_iff, beq_eq_false_iff_ne, ne_eq]
      omega
    have e2 : isAuthStop c = false := by
      unfold isAuthStop
      simp only [Bool.or_eq_false_iff, beq_eq_false_iff_ne, ne_eq]
      omega
    rw [e1, e2]
  · rw [lowerJS_eq_self c h]

/-! Properties of the URL serializer. -/

theorem pathPart_head (t : List Char) : ∃ r, pathPart t = '/' :: r := by
  cases t with
  | nil => exact ⟨[], rfl⟩
  | cons x tl =>
    rw [pathPart]
    split
    · rename_i hx
      rw [beq_iff_eq] at hx
      exact ⟨tl, by rw [hx]⟩
    · exact ⟨x :: tl, rfl⟩

theorem pathPart_idem (t : List Char) : pathPart (pathPart t) = pathPart t := by
  obtain ⟨r, hr⟩ := pathPart_head t
  rw [hr]
  simp [pathPart]

theorem mem_pathPart {t : List Char} {c : Char} (h : c ∈ pathPart t) : c = '/' ∨ c ∈ t := by
  cases t with
  | nil =>
    simp only [pathPart, List.mem_singleton] at h
    exact Or.inl h
  | cons x tl =>
    rw [pathPart] at h
    split at h
    · exact Or.inr h
    · rcases List.mem_cons.mp h with rfl | h2
      · exact Or.inl rfl
      · exact Or.inr h2

theorem toStr_leadsWith_http {u : UrlObj} (hs : u.scheme = "http".toList) :
    leadsWith "http://".toList u.toStr = true := by
  rw [UrlObj.toStr, hs,
    show ("http".toList ++ "://".toList : List Char) = "http://".toList ++ [] from rfl]
  simp only [List.append_nil, List.append_assoc]
  exact leadsWith_append _ _

theorem toStr_leadsWith_https {u : UrlObj} (hs : u.scheme = "https".toList) :
    leadsWith "https://".toList u.toStr = true := by
  rw [UrlObj.toStr, hs,
    show ("https".toList ++ "://".toList : List Char) = "https://".toList ++ [] from rfl]
  simp only [List.append_nil, List.append_assoc]
  exact leadsWith_append _ _

theorem toStr_chars {n : List Char} {u : UrlObj} (hu : urlParse n = some u)
    (h : ∀ c ∈ n, isJsWs c = false) : ∀ c ∈ u.toStr, isJsWs c = false := by
  obtain ⟨rest, hs, hauth, htail, -⟩ := urlParse_cases hu
  have hrest : ∀ c ∈ rest, isJsWs c = false := by
    intro c hc
    apply h
    rcases hs with ⟨-, rfl⟩ | ⟨-, rfl⟩
    · exact List.mem_append_right _ hc
    · exact List.mem_append_right _ hc
  intro c hc
  rw [UrlObj.toStr] at hc
  rcases List.mem_append.mp hc with hc1 | hcp
  · rcases List.mem_append.mp hc1 with hc2 | hca
    · rcases List.mem_append.mp hc2 with hcs | hcsep
      · rcases hs with ⟨hsc, -⟩ | ⟨hsc, -⟩
        · rw [hsc] at hcs
          exact (by decide : ∀ x ∈ ("http".toList : List Char), isJsWs x = false) c hcs
        · rw [hsc] at hcs
          exact (by decide : ∀ x ∈ ("https".toList : List Char), isJsWs x = false) c hcs
      · exact (by decide : ∀ x ∈ ("://".toList : List Char), isJsWs x = false) c hcsep
    · rw [hauth] at hca
      obtain ⟨d, hd, rfl⟩ := List.mem_map.mp hca
      rw [isJsWs_lowerJS]
      exact hrest d (mem_of_mem_takeWhile hd)
  · rcases mem_pathPart hcp with rfl | hct
    · decide
    · rw [htail] at hct
      exact hrest c (mem_of_mem_dropWhile hct)

/-- Reparsing a serialized URL succeeds and reserializes to the same string. -/
theorem urlParse_toStr {n : List Char} {u : UrlObj} (hu : urlParse n = some u) :
    urlParse u.toStr = some ⟨u.scheme, u.auth, pathPart u.tail⟩ ∧
    UrlObj.toStr ⟨u.scheme, u.auth, pathPart u.tail⟩ = u.toStr := by
  obtain ⟨rest, hs, hauth, htail, hne⟩ := urlParse_cases hu
  have hstop : ∀ c ∈ u.auth, (!isAuthStop c) = true := by
    intro c hc
    rw [hauth] at hc
    obtain ⟨d, hd, rfl⟩ := List.mem_map.mp hc
    have hd2 := sat_of_mem_takeWhile hd
    rw [Bool.not_eq_true'] at hd2 ⊢
    rw [isAuthStop_lowerJS]
    exact hd2
  have hlower : u.auth.map lowerJS = u.auth := by
    rw [hauth, List.map_map]
    congr 1
    funext x
    exact lowerJS_idem x
  have hne' : u.auth.isEmpty = false := by
    rw [hauth]
    cases hcase : rest.takeWhile (fun c => !isAuthStop c) with
    | nil =>
      rw [hcase] at hne
      simp at hne
    | cons y ys => simp
  obtain ⟨r, hr⟩ := pathPart_head u.tail
  have htw : (u.auth ++ pathPart u.tail).takeWhile (fun c => !isAuthStop c) = u.auth := by
    rw [takeWhile_append_of_all _ hstop, hr]
    rw [show (('/' :: r).takeWhile (fun c => !isAuthStop c)) = [] from rfl]
    simp
  have hdw : (u.auth ++ pathPart u.tail).dropWhile (fun c => !isAuthStop c) =
      pathPart u.tail := by
    rw [dropWhile_append_of_all _ hstop, hr]
    rfl
  refine ⟨?_, by simp only [UrlObj.toStr]; rw [pathPart_idem]⟩
  rcases hs with ⟨hsc, -⟩ | ⟨hsc, -⟩
  · have hts : u.toStr = "http://".toList ++ (u.auth ++ pathPart u.tail) := by
      rw [UrlObj.toStr, hsc,
        show ("http".toList ++ "://".toList : List Char) = "http://".toList ++ [] from rfl]
      simp [List.append_assoc]
    rw [hts]
    unfold urlParse
    rw [if_pos (leadsWith_append _ _)]
    rw [show List.drop 7 ("http://".toList ++ (u.auth ++ pathPart u.tail)) =
      u.auth ++ pathPart u.tail from rfl]
    unfold urlParseFrom
    rw [htw, hdw, hne']
    simp [hlower, hsc]
  · have hts : u.toStr = "https://".toList ++ (u.auth ++ pathPart u.tail) := by
      rw [UrlObj.toStr, hsc,
        show ("https".toList ++ "://".toList : List Char) = "https://".toList ++ [] from rfl]
      simp [List.append_assoc]
    rw [hts]
    unfold urlParse
    rw [show leadsWith "http://".toList
      ("https://".toList ++ (u.auth ++ pathPart u.tail)) = false from rfl]
    rw [if_neg (by simp), if_pos (leadsWith_append _ _)]
    rw [show List.drop 8 ("https://".toList ++ (u.auth ++ pathPart u.tail)) =
      u.auth ++ pathPart u.tail from rfl]
    unfold urlParseFrom
    rw [htw, hdw, hne']
    simp [hlower, hsc]

/-- Witness for C3 at a bare domain: `example.com` is accepted, normalizes to
`https://example.com/`, and the normalized form begins with `https://`. -/
theorem claim_C3_witness :
    (URLValidator.validate "example.com".toList).isValid = true ∧
    (URLValidator.validate "example.com".toList).normalizedUrl =
      some "https://example.com/".toList ∧
    leadsWith "https://".toList "https://example.com/".toList = true := by
  refine ⟨by decide, by decide, ?_⟩
  exact (claim_C3_scheme "example.com".toList "https://example.com/".toList
    (by decide) (by decide)).2 (by decide) (by decide)

/-! Claim C2: idempotence of validate on its normalized output. -/

/-- Counterexample to C2 as stated: `https://a#b.com` is accepted (the regexp
matches `a#b` as host part and `com` as top-level-domain part, and the parser
puts the fragment `#b.com` after the host `a`), its normalized form is
`https://a/#b.com`, but validating that normalized output is rejected, because
after the inserted `/` no prefix of the host part can be followed by a dot.
So `validate(validate(url).normalized)` is not `ok` for every accepted `url`. -/
theorem claim_C2_counterexample :
    (URLValidator.validate "https://a#b.com".toList).isValid = true ∧
    (URLValidator.validate "https://a#b.com".toList).normalizedUrl =
      some "https://a/#b.com".toList ∧
    (URLValidator.validate "https://a/#b.com".toList).isValid = false :=
  ⟨by decide, by decide, by decide⟩

/-- C2 (amended): whenever `validate` accepts `url` with normalized output `o`,
and re-validating `o` also succeeds, the re-validation returns `o` itself
(re-normalization is a fixed point); the unamended claim fails because the
re-validation can reject, see the counterexample. -/
theorem claim_C2_amended (url o o2 : List Char)
    (h1 : (URLValidator.validate url).isValid = true)
    (h2 : (URLValidator.validate url).normalizedUrl = some o)
    (h3 : (URLValidator.validate o).isValid = true)
    (h4 : (URLValidator.validate o).normalizedUrl = some o2) :
    o2 = o := by
  obtain ⟨-, hreg, -, u, hu, ho⟩ := validate_success_parts h1
  rw [h2] at ho
  obtain rfl : o = u.toStr := by injection ho
  have hnws := regex_chars_nonWs hreg
  have honws : ∀ c ∈ u.toStr, isJsWs c = false := toStr_chars hu hnws
  have htrim : trimJS u.toStr = u.toStr := trimJS_eq_self honws
  obtain ⟨rest, hs, -, -, -⟩ := urlParse_cases hu
  have hadd : URLValidator.addMissingScheme u.toStr = u.toStr := by
    have hcond : (!leadsWith "http://".toList u.toStr &&
        !leadsWith "https://".toList u.toStr) = false := by
      rcases hs with ⟨hsc, -⟩ | ⟨hsc, -⟩
      · rw [toStr_leadsWith_http hsc]
        rfl
      · rw [toStr_leadsWith_https hsc]
        simp
    unfold URLValidator.addMissingScheme
    rw [hcond]
    simp
  obtain ⟨hp1, hp2⟩ := urlParse_toStr hu
  obtain ⟨-, -, -, u2, hu2, ho2⟩ := validate_success_parts h3
  rw [htrim, hadd] at hu2
  rw [hu2] at hp1
  obtain rfl : u2 = ⟨u.scheme, u.auth, pathPart u.tail⟩ := by injection hp1
  rw [h4] at ho2
  have ho3 : o2 = UrlObj.toStr ⟨u.scheme, u.auth, pathPart u.tail⟩ := by injection ho2
  rw [ho3, hp2]

/-- Witness for the amended C2: `example.com` normalizes to
`https://example.com/`, whose re-validation succeeds and returns it unchanged. -/
theorem claim_C2_witness :
    (URLValidator.validate "example.com".toList).isValid = true ∧
    "https://example.com/".toList = "https://example.com/".toList :=
  ⟨by decide,
   claim_C2_amended "example.com".toList "https://example.com/".toList
     "https://example.com/".toList (by decide) (by decide) (by decide) (by decide)⟩

/-! Claim C9: the JavaScript dedup idiom keeps first occurrences. -/

theorem idxOfStr_append_lt {x : String} {pre : List String} (hx : x ∈ pre) :
    ∀ l2, idxOfStr (pre ++ l2) x < pre.length := by
  induction pre with
  | nil => simp at hx
  | cons p ps ih =>
    intro l2
    rw [List.cons_append, idxOfStr]
    cases hp : (p == x) with
    | true => simp [hp]
    | false =>
      have hx2 : x ∈ ps := by
        rcases List.mem_cons.mp hx with rfl | h2
        · simp at hp
        · exact h2
      have := ih hx2 l2
      simp only [hp, Bool.false_eq_true, if_false, List.length_cons]
      omega

theorem idxOfStr_append_self {x : String} {pre : List String} (hx : x ∉ pre)
    (tl : List String) : idxOfStr (pre ++ x :: tl) x = pre.length := by
  induction pre with
  | nil => simp [idxOfStr]
  | cons p ps ih =>
    have hp : (p == x) = false := by
      rw [beq_eq_false_iff_ne]
      intro h
      exact hx (by rw [h]; exact List.mem_cons_self _ _)
    rw [List.cons_append, idxOfStr, hp]
    simp only [Bool.false_eq_true, if_false, List.length_cons]
    rw [ih (fun h => hx (List.mem_cons_of_mem _ h))]

theorem dedupAcc_congr : ∀ (t : List String) {u v : List String},
    (∀ a, a ∈ u ↔ a ∈ v) → dedupAcc u t = dedupAcc v t := by
  intro t
  induction t with
  | nil => intro s1 s2 _; rfl
  | cons x tl ih =>
    intro s1 s2 h
    rw [dedupAcc, dedupAcc]
    by_cases hx : x ∈ s1
    · rw [if_pos hx, if_pos ((h x).mp hx)]
      exact ih h
    · rw [if_neg hx, if_neg (fun hc => hx ((h x).mpr hc))]
      rw [ih (u := s1 ++ [x]) (v := s2 ++ [x]) (fun a => by
        simp only [List.mem_append, List.mem_singleton]
        exact or_congr (h a) Iff.rfl)]

theorem filterIdx_eq_dedupAcc (l : List String) :
    ∀ (t pre : List String), l = pre ++ t →
      filterIdxGo (fun i a => idxOfStr l a == i) pre.length t = dedupAcc pre t := by
  intro t
  induction t with
  | nil => intro pre _; rfl
  | cons x tl ih =>
    intro pre hl
    rw [filterIdxGo, dedupAcc]
    have hstep := ih (pre ++ [x]) (by rw [hl]; simp)
    rw [show (pre ++ [x]).length = pre.length + 1 from by simp] at hstep
    by_cases hx : x ∈ pre
    · have hlt : idxOfStr l x < pre.length := by
        rw [hl]
        exact idxOfStr_append_lt hx _
      have hbeq : (idxOfStr l x == pre.length) = false := by
        rw [beq_eq_false_iff_ne]
        omega
      rw [if_neg (by simp [hbeq]), if_pos hx, hstep]
      exact dedupAcc_congr tl (fun a =>
        ⟨fun h2 => by
          rcases List.mem_append.mp h2 with h3 | h3
          · exact h3
          · rw [List.mem_singleton] at h3
            rw [h3]
            exact hx,
         fun h2 => List.mem_append_left _ h2⟩)
    · have heq : idxOfStr l x = pre.length := by
        rw [hl]
        exact idxOfStr_append_self hx tl
      rw [if_pos (by simp [heq]), if_neg hx, hstep]

theorem jsDedupFirst_eq_dedupKeepFirst (l : List String) :
    jsDedupFirst l = dedupKeepFirst l := by
  unfold jsDedupFirst dedupKeepFirst
  have := filterIdx_eq_dedupAcc l l [] rfl
  simpa using this

/-- C9: `sanitizeTags` applies `sanitizeText` to each element, drops elements
that become empty, removes duplicates keeping the first occurrence, and keeps at
most the first 10 entries; in particular
`sanitizeTags ["a", "a", " a ", "b"] = ["a", "b"]`. -/
theorem claim_C9_sanitizeTags :
    (∀ tags : List String,
      sanitizeTags tags =
        (dedupKeepFirst ((tags.map sanitizeText).filter
          (fun t => decide (0 < t.length)))).take 10) ∧
    sanitizeTags ["a", "a", " a ", "b"] = ["a", "b"] := by
  constructor
  · intro tags
    unfold sanitizeTags
    rw [jsDedupFirst_eq_dedupKeepFirst]
  · decide

/-! Claim C10: `sanitize` returns the raw input on rejection. -/

theorem validate_shape (url : List Char) :
    ((URLValidator.validate url).isValid = true ∧
      ∃ o, (URLValidator.validate url).normalizedUrl = some o) ∨
    ((URLValidator.validate url).isValid = false ∧
      (URLValidator.validate url).normalizedUrl = none) := by
  unfold URLValidator.validate
  split
  · exact Or.inr ⟨rfl, rfl⟩
  · split
    · exact Or.inr ⟨rfl, rfl⟩
    · split
      · exact Or.inr ⟨rfl, rfl⟩
      · split
        · exact Or.inr ⟨rfl, rfl⟩
        · split
          · exact Or.inr ⟨rfl, rfl⟩
          · exact Or.inl ⟨rfl, _, rfl⟩

/-- C10: when `validate` rejects an input, `sanitize` returns the raw input
string unchanged; only for accepted inputs does `sanitize` return the
(always nonempty) normalized URL. -/
theorem claim_C10_sanitize (url : List Char) :
    ((URLValidator.validate url).isValid = false → URLValidator.sanitize url = url) ∧
    (∀ o, (URLValidator.validate url).normalizedUrl = some o →
      URLValidator.sanitize url = o) := by
  constructor
  · intro h
    have hnone : (URLValidator.validate url).normalizedUrl = none := by
      rcases validate_shape url with ⟨hv, -⟩ | ⟨-, hn⟩
      · rw [h] at hv
        exact absurd hv (by simp)
      · exact hn
    unfold URLValidator.sanitize
    rw [hnone]
  · intro o ho
    have hval : (URLValidator.validate url).isValid = true := by
      rcases validate_shape url with ⟨hv, -⟩ | ⟨-, hn⟩
      · exact hv
      · rw [ho] at hn
        exact absurd hn (by simp)
    obtain ⟨-, -, -, u, hu, ho'⟩ := validate_success_parts hval
    rw [ho] at ho'
    obtain rfl : o = u.toStr := by injection ho'
    have hne : u.toStr.isEmpty = false := by
      obtain ⟨rest, hs, -, -, -⟩ := urlParse_cases hu
      rcases hs with ⟨hsc, -⟩ | ⟨hsc, -⟩
      · rw [UrlObj.toStr, hsc]
        rfl
      · rw [UrlObj.toStr, hsc]
        rfl
    unfold URLValidator.sanitize
    rw [ho]
    simp [hne]

/-- Witness for C10: a rejected input (`javascript:alert(1)`, which fails the
URL-shape check) comes back unchanged from `sanitize`, and an accepted one
(`example.com`) comes back normalized. -/
theorem claim_C10_witness :
    (URLValidator.validate "javascript:alert(1)".toList).isValid = false ∧
    URLValidator.sanitize "javascript:alert(1)".toList = "javascript:alert(1)".toList ∧
    URLValidator.sanitize "example.com".toList = "https://example.com/".toList :=
  ⟨by decide,
   (claim_C10_sanitize "javascript:alert(1)".toList).1 (by decide),
   (claim_C10_sanitize "example.com".toList).2 "https://example.com/".toList (by decide)⟩

/-! Claim C4: empty titles are rejected before anything is persisted. -/

theorem sanitizeTitle_of_trim_empty {s : String} (h : jsTrimS s = "") :
    sanitizeTitle s = "" := by
  have hdata : trimJS s.data = [] := congrArg String.data h
  unfold sanitizeTitle sanitizeTextL
  rw [hdata]
  rfl

theorem validateGameData_empty_title (u : String) (d a : Option String)
    (t : List String) :
    (validateGameData "" u d a t).1 = false ∧
    "Title is required" ∈ (validateGameData "" u d a t).2 := by
  unfold validateGameData
  rw [show (jsTrimS "" == "") = true from rfl]
  simp

/-- C4: submitting a candidate game whose title is empty or whitespace-only,
with a valid URL, is rejected with a required-title error, and nothing is
persisted: the store after the attempt is exactly the store before it. -/
theorem claim_C4_empty_title (fits : List Game → Bool) (form : SubmissionForm)
    (uuid now : String) (σ : Store)
    (htitle : jsTrimS form.title = "")
    (_hurl : (URLValidator.validate form.url.data).isValid = true) :
    ∃ errs, submitGame fits form uuid now σ = (.rejected errs, σ) ∧
      "Title is required" ∈ errs := by
  have hst : sanitizeTitle form.title = "" := sanitizeTitle_of_trim_empty htitle
  simp only [submitGame]
  rw [hst]
  obtain ⟨h1, h2⟩ := validateGameData_empty_title (jsTrimS form.url)
    (if form.description == "" then none else some (sanitizeDescription form.description))
    (if form.author == "" then none else some (sanitizeAuthor form.author))
    (sanitizeTags form.tags)
  refine ⟨_, ?_, h2⟩
  rw [h1]
  simp

/-- Witness for C4: a whitespace-only title with the valid URL
`https://example.com` is rejected with the required-title error and the empty
store stays empty. -/
theorem claim_C4_witness :
    jsTrimS "   " = "" ∧
    (URLValidator.validate "https://example.com".toList).isValid = true ∧
    ∃ errs, submitGame (fun _ => true) ⟨"   ", "https://example.com", "", "", []⟩
        "id-1" "2024-01-01T00:00:00.000Z" ⟨[]⟩ = (.rejected errs, ⟨[]⟩) ∧
      "Title is required" ∈ errs :=
  ⟨by decide, by decide,
   claim_C4_empty_title (fun _ => true) ⟨"   ", "https://example.com", "", "", []⟩
     "id-1" "2024-01-01T00:00:00.000Z" ⟨[]⟩ (by decide) (by decide)⟩

/-! Claim C5: failing operations leave the store unchanged. -/

theorem saveGames_error_state {fits : List Game → Bool} {gs : List Game} {σ : Store}
    {e : String} (h : (saveGames fits gs σ).1 = .error e) :
    (saveGames fits gs σ).2 = σ := by
  unfold saveGames at h ⊢
  by_cases hf : fits gs = true
  · rw [if_pos hf] at h
    exact absurd h (by simp)
  · rw [if_neg hf]

theorem save_error_state {fits : List Game → Bool} {inp : SaveInput} {uuid now : String}
    {σ : Store} {e : String} (h : (save fits inp uuid now σ).1 = .error e) :
    (save fits inp uuid now σ).2 = σ := by
  unfold save at h ⊢
  by_cases hv : (!(URLValidator.validate inp.url.data).isValid) = true
  · rw [if_pos hv]
  · rw [if_neg hv] at h ⊢
    exact saveGames_error_state h

theorem update_error_state {fits : List Game → Bool} {id : String} {p : GamePatch}
    {σ : Store} {e : String} (h : (update fits id p σ).1 = .error e) :
    (update fits id p σ).2 = σ := by
  unfold update at h ⊢
  by_cases h1 : (((getAllL σ).find? (fun g => g.id == id)).isNone) = true
  · rw [if_pos h1]
  · rw [if_neg h1] at h ⊢
    cases hp : resolvePatch p with
    | error m => rfl
    | ok p2 =>
      rw [hp] at h
      exact saveGames_error_state h

theorem deleteOp_error_state {fits : List Game → Bool} {id : String} {σ : Store}
    {e : String} (h : (deleteOp fits id σ).1 = .error e) :
    (deleteOp fits id σ).2 = σ := by
  unfold deleteOp at h ⊢
  exact saveGames_error_state h

theorem importOp_error_state {fits : List Game → Bool} {inp : ImportInput} {σ : Store}
    {e : String} (h : (importOp fits inp σ).1 = .error e) :
    (importOp fits inp σ).2 = σ := by
  cases inp with
  | badJson => rfl
  | noGamesArray => rfl
  | gamesArr l =>
    simp only [importOp] at h ⊢
    by_cases ha : (l.all isValidGame) = true
    · rw [if_pos ha] at h ⊢
      cases hs : (saveGames fits (l.map rawToGame) σ).1 with
      | ok v =>
        have : saveGames fits (l.map rawToGame) σ =
            (.ok v, (saveGames fits (l.map rawToGame) σ).2) := by
          rw [← hs]
        rw [this] at h
        simp at h
      | error m =>
        have hrw : saveGames fits (l.map rawToGame) σ =
            (.error m, (saveGames fits (l.map rawToGame) σ).2) := by
          rw [← hs]
        rw [hrw]
        exact saveGames_error_state (by rw [hs])
    · rw [if_neg ha]

theorem incrementPlayCount_error_state {fits : List Game → Bool} {id : String}
    {σ : Store} {e : String} (h : (incrementPlayCount fits id σ).1 = .error e) :
    (incrementPlayCount fits id σ).2 = σ := by
  unfold incrementPlayCount at h ⊢
  cases hg : getById id σ with
  | none => rfl
  | some g =>
    rw [hg] at h
    exact update_error_state h

/-- C5: every persistence-adapter operation that fails with an error leaves the
stored collection exactly in its prior state — no partial write is visible
after a validation, not-found, parse or storage failure of `save`, `update`,
`delete`, `import` or `incrementPlayCount`. -/
theorem claim_C5_no_partial_writes (fits : List Game → Bool) (σ : Store) :
    (∀ inp uuid now e, (save fits inp uuid now σ).1 = .error e →
      (save fits inp uuid now σ).2 = σ) ∧
    (∀ id p e, (update fits id p σ).1 = .error e → (update fits id p σ).2 = σ) ∧
    (∀ id e, (deleteOp fits id σ).1 = .error e → (deleteOp fits id σ).2 = σ) ∧
    (∀ inp e, (importOp fits inp σ).1 = .error e → (importOp fits inp σ).2 = σ) ∧
    (∀ id e, (incrementPlayCount fits id σ).1 = .error e →
      (incrementPlayCount fits id σ).2 = σ) :=
  ⟨fun _ _ _ _ h => save_error_state h,
   fun _ _ _ h => update_error_state h,
   fun _ _ h => deleteOp_error_state h,
   fun _ _ h => importOp_error_state h,
   fun _ _ h => incrementPlayCount_error_state h⟩

/-- Witness for C5: on a store holding one game, a save with an unsafe URL, an
update of an absent id, a delete under a full quota, an import of bad JSON and
an increment of a present id under a full quota all fail and leave the store
unchanged. -/
theorem claim_C5_witness :
    (save (fun _ => true)
        ⟨"G", "javascript:alert(1)", none, none, [], false, .active⟩
        "id-2" "2024-01-01T00:00:00.000Z" ⟨[]⟩).1 =
      .error "Invalid URL: Please enter a valid URL" ∧
    (save (fun _ => true)
        ⟨"G", "javascript:alert(1)", none, none, [], false, .active⟩
        "id-2" "2024-01-01T00:00:00.000Z" ⟨[]⟩).2 = ⟨[]⟩ ∧
    (update (fun _ => true) "missing" {} ⟨[]⟩).1 = .error "Game not found" ∧
    (update (fun _ => true) "missing" {} ⟨[]⟩).2 = ⟨[]⟩ ∧
    (deleteOp (fun _ => false) "x" ⟨[]⟩).2 = ⟨[]⟩ ∧
    (importOp (fun _ => true) .badJson ⟨[]⟩).2 = ⟨[]⟩ := by
  refine ⟨rfl, ?_, rfl, ?_, ?_, ?_⟩
  · exact (claim_C5_no_partial_writes (fun _ => true) ⟨[]⟩).1
      ⟨"G", "javascript:alert(1)", none, none, [], false, .active⟩
      "id-2" "2024-01-01T00:00:00.000Z" "Invalid URL: Please enter a valid URL" rfl
  · exact (claim_C5_no_partial_writes (fun _ => true) ⟨[]⟩).2.1 "missing" {}
      "Game not found" rfl
  · exact (claim_C5_no_partial_writes (fun _ => false) ⟨[]⟩).2.2.1 "x"
      "Failed to save games to storage" rfl
  · exact (claim_C5_no_partial_writes (fun _ => true) ⟨[]⟩).2.2.2.1 .badJson
      "Import failed: Unknown error" rfl

/-! Claim C6: incrementing twice adds exactly 2 and changes nothing else. -/

theorem find_of_nodup {games : List Game} {g : Game} {id : String}
    (hnodup : (games.map Game.id).Nodup) (hg : g ∈ games) (hid : g.id = id) :
    games.find? (fun x => x.id == id) = some g := by
  induction games with
  | nil => simp at hg
  | cons h0 tl ih =>
    rw [List.map_cons, List.nodup_cons] at hnodup
    cases hq : (h0.id == id) with
    | true =>
      simp only [List.find?, hq]
      rw [beq_iff_eq] at hq
      rcases List.mem_cons.mp hg with rfl | h2
      · rfl
      · exfalso
        apply hnodup.1
        rw [hq, ← hid]
        exact List.mem_map_of_mem Game.id h2
    | false =>
      simp only [List.find?, hq]
      rcases List.mem_cons.mp hg with rfl | h2
      · rw [beq_eq_false_iff_ne] at hq
        exact absurd hid hq
      · exact ih hnodup.2 h2

theorem eq_of_mem_of_id_eq {l : List Game} (hnodup : (l.map Game.id).Nodup)
    {g r : Game} (hg : g ∈ l) (hr : r ∈ l) (h : g.id = r.id) : g = r := by
  induction l with
  | nil => simp at hg
  | cons a tl ih =>
    rw [List.map_cons, List.nodup_cons] at hnodup
    rcases List.mem_cons.mp hg with rfl | hg2
    · rcases List.mem_cons.mp hr with rfl | hr2
      · rfl
      · exact absurd (by rw [h]; exact List.mem_map_of_mem Game.id hr2) hnodup.1
    · rcases List.mem_cons.mp hr with rfl | hr2
      · exact absurd (by rw [← h]; exact List.mem_map_of_mem Game.id hg2) hnodup.1
      · exact ih hnodup.2 hg2 hr2

theorem map_eq_self_of_id {l : List Game} {f : Game → Game}
    (h : ∀ x ∈ l, f x = x) : l.map f = l := by
  induction l with
  | nil => rfl
  | cons a tl ih =>
    rw [List.map_cons, h a (List.mem_cons_self _ _),
      ih (fun x hx => h x (List.mem_cons_of_mem _ hx))]

theorem setFirstMatch_eq_map {games : List Game} {id : String} (f : Game → Game)
    (hnodup : (games.map Game.id).Nodup) :
    setFirstMatch (fun x => x.id == id) f games =
      games.map (fun x => if x.id = id then f x else x) := by
  induction games with
  | nil => rfl
  | cons h0 tl ih =>
    rw [List.map_cons, List.nodup_cons] at hnodup
    rw [setFirstMatch, List.map_cons]
    by_cases hq : h0.id = id
    · rw [if_pos (by simp [hq]), if_pos hq]
      congr 1
      symm
      apply map_eq_self_of_id
      intro x hx
      rw [if_neg]
      intro hxid
      apply hnodup.1
      rw [hq, ← hxid]
      exact List.mem_map_of_mem Game.id hx
    · rw [if_neg (by simp [hq]), if_neg hq]
      congr 1
      exact ih hnodup.2

theorem increment_step {fits : List Game → Bool} {σ : Store} {g : Game} {id : String}
    (hfits : ∀ l, fits l = true)
    (hnodup : (σ.games.map Game.id).Nodup) (hg : g ∈ σ.games) (hid : g.id = id) :
    incrementPlayCount fits id σ =
      (.ok (), ⟨σ.games.map (fun r => if r.id = id then
        { r with playCount := r.playCount + 1 } else r)⟩) := by
  have hfind : σ.games.find? (fun x => x.id == id) = some g :=
    find_of_nodup hnodup hg hid
  have hinc : incrementPlayCount fits id σ =
      update fits id { playCount := some (g.playCount + 1) } σ := by
    unfold incrementPlayCount getById getAllL
    rw [hfind]
  have hupd : update fits id { playCount := some (g.playCount + 1) } σ =
      saveGames fits (setFirstMatch (fun x => x.id == id)
        (fun x => applyPatch x { playCount := some (g.playCount + 1) }) σ.games) σ := by
    unfold update getAllL
    rw [hfind, if_neg (by simp)]
    rfl
  have hmapeq : σ.games.map
      (fun x => if x.id = id then applyPatch x { playCount := some (g.playCount + 1) }
                else x) =
      σ.games.map (fun r => if r.id = id then
        { r with playCount := r.playCount + 1 } else r) := by
    apply List.map_congr_left
    intro r hr
    by_cases hrid : r.id = id
    · have hge : g = r := eq_of_mem_of_id_eq hnodup hg hr (by rw [hid, hrid])
      subst hge
      rw [if_pos hrid, if_pos hrid]
      rfl
    · rw [if_neg hrid, if_neg hrid]
  rw [hinc, hupd, setFirstMatch_eq_map _ hnodup, hmapeq]
  unfold saveGames
  rw [if_pos (hfits _)]

/-- C6: for a record `g` of a collection whose ids are unique (the data-model
invariant), calling `incrementPlayCount` twice on `g.id` succeeds (under an
accepting quota `fits`) and increases that record's `playCount` by exactly 2,
leaving every other field of the record, and every other record, unchanged. -/
theorem claim_C6_increment_twice (fits : List Game → Bool) (σ : Store) (g : Game)
    (hfits : ∀ l, fits l = true)
    (hnodup : (σ.games.map Game.id).Nodup) (hg : g ∈ σ.games) :
    (incrementPlayCount fits g.id σ).1 = .ok () ∧
    (incrementPlayCount fits g.id (incrementPlayCount fits g.id σ).2).1 = .ok () ∧
    (incrementPlayCount fits g.id (incrementPlayCount fits g.id σ).2).2.games =
      σ.games.map (fun r => if r.id = g.id then
        { r with playCount := r.playCount + 2 } else r) := by
  have s1 := increment_step hfits hnodup hg rfl
  have hnodup1 : ((σ.games.map (fun r => if r.id = g.id then
      { r with playCount := r.playCount + 1 } else r)).map Game.id).Nodup := by
    rw [List.map_map]
    have hcomp : (Game.id ∘ fun r => if r.id = g.id then
        { r with playCount := r.playCount + 1 } else r) = Game.id := by
      funext r
      by_cases hr : r.id = g.id
      · simp [Function.comp, hr]
      · simp [Function.comp, hr]
    rw [hcomp]
    exact hnodup
  have hg1 : ({ g with playCount := g.playCount + 1 } : Game) ∈
      σ.games.map (fun r => if r.id = g.id then
        { r with playCount := r.playCount + 1 } else r) := by
    have h3 := List.mem_map_of_mem (fun r => if r.id = g.id then
      { r with playCount := r.playCount + 1 } else r) hg
    simpa using h3
  have s2 := increment_step (σ := ⟨σ.games.map (fun r => if r.id = g.id then
      { r with playCount := r.playCount + 1 } else r)⟩) (g := { g with playCount := g.playCount + 1 })
      hfits hnodup1 hg1 rfl
  have h2 : (incrementPlayCount fits g.id σ).2 = ⟨σ.games.map (fun r =>
      if r.id = g.id then { r with playCount := r.playCount + 1 } else r)⟩ := by
    rw [s1]
  refine ⟨by rw [s1], by rw [h2, s2], ?_⟩
  rw [h2, s2]
  show (σ.games.map (fun r => if r.id = g.id then
      { r with playCount := r.playCount + 1 } else r)).map (fun r => if r.id = g.id then
      { r with playCount := r.playCount + 1 } else r) = _
  rw [List.map_map]
  apply List.map_congr_left
  intro r _
  by_cases hr : r.id = g.id
  · simp only [Function.comp_apply, if_pos hr]
  · simp only [Function.comp_apply, if_neg hr]

/-- Concrete record used in closed instances. -/
def cexGameW : Game :=
  { id := "id-w", title := "W", url := "https://w.com/", description := none,
    author := none, tags := [], submittedAt := "2024-01-01T00:00:00.000Z",
    featured := false, playCount := 5, status := .active }

/-- Witness for C6 on a one-record store: two increments succeed and turn the
record's `playCount` 5 into 7, all other fields untouched. -/
theorem claim_C6_witness :
    (incrementPlayCount (fun _ => true) cexGameW.id ⟨[cexGameW]⟩).1 = .ok () ∧
    (incrementPlayCount (fun _ => true) cexGameW.id
      (incrementPlayCount (fun _ => true) cexGameW.id ⟨[cexGameW]⟩).2).1 = .ok () ∧
    (incrementPlayCount (fun _ => true) cexGameW.id
      (incrementPlayCount (fun _ => true) cexGameW.id ⟨[cexGameW]⟩).2).2.games =
      [cexGameW].map (fun r => if r.id = cexGameW.id then
        { r with playCount := r.playCount + 2 } else r) :=
  claim_C6_increment_twice (fun _ => true) ⟨[cexGameW]⟩ cexGameW (fun _ => rfl)
    (by decide) (by decide)

/-! Claim C7: ordering of getAll. -/

theorem insertDesc_perm (g : Game) (l : List Game) :
    (insertDesc g l).Perm (g :: l) := by
  induction l with
  | nil => exact List.Perm.refl _
  | cons h tl ih =>
    rw [insertDesc]
    split
    · exact List.Perm.refl _
    · exact (List.Perm.cons h ih).trans (List.Perm.swap g h tl)

theorem sortDesc_perm (l : List Game) : (sortDescBySubmitted l).Perm l := by
  induction l with
  | nil => exact List.Perm.refl _
  | cons g tl ih => exact (insertDesc_perm g _).trans (List.Perm.cons g ih)

theorem mem_insertDesc {g b : Game} {l : List Game} (h : b ∈ insertDesc g l) :
    b = g ∨ b ∈ l := by
  induction l with
  | nil =>
    rw [insertDesc, List.mem_singleton] at h
    exact Or.inl h
  | cons h0 tl ih =>
    rw [insertDesc] at h
    split at h
    · rcases List.mem_cons.mp h with rfl | h2
      · exact Or.inl rfl
      · exact Or.inr h2
    · rcases List.mem_cons.mp h with rfl | h2
      · exact Or.inr (List.mem_cons_self _ _)
      · rcases ih h2 with h3 | h3
        · exact Or.inl h3
        · exact Or.inr (List.mem_cons_of_mem _ h3)

theorem insertDesc_sorted {g : Game} {l : List Game}
    (h : List.Sorted (fun a b => b.submittedAt ≤ a.submittedAt) l) :
    List.Sorted (fun a b => b.submittedAt ≤ a.submittedAt) (insertDesc g l) := by
  induction l with
  | nil => simp [insertDesc]
  | cons h0 tl ih =>
    rw [List.sorted_cons] at h
    rw [insertDesc]
    split
    · rename_i hle
      rw [List.sorted_cons]
      refine ⟨?_, List.sorted_cons.mpr h⟩
      intro b hb
      rcases List.mem_cons.mp hb with rfl | hb2
      · exact hle
      · exact le_trans (h.1 b hb2) hle
    · rename_i hgt
      rw [List.sorted_cons]
      refine ⟨?_, ih h.2⟩
      intro b hb
      rcases mem_insertDesc hb with rfl | hb2
      · exact le_of_not_le hgt
      · exact h.1 b hb2

theorem sortDesc_sorted (l : List Game) :
    List.Sorted (fun a b => b.submittedAt ≤ a.submittedAt) (sortDescBySubmitted l) := by
  induction l with
  | nil => simp [sortDescBySubmitted]
  | cons g tl ih => exact insertDesc_sorted ih

theorem save_ok_append {fits : List Game → Bool} {inp : SaveInput} {uuid now : String}
    {σ : Store} (h : (save fits inp uuid now σ).1 = .ok ()) :
    ∃ g, getAllL (save fits inp uuid now σ).2 = getAllL σ ++ [g] ∧
      g.submittedAt = now := by
  unfold save at h ⊢
  by_cases hv : (!(URLValidator.validate inp.url.data).isValid) = true
  · rw [if_pos hv] at h
    simp at h
  · rw [if_neg hv] at h ⊢
    unfold saveGames at h ⊢
    split at h
    · rename_i hf
      rw [if_pos hf]
      exact ⟨_, rfl, rfl⟩
    · simp at h

/-- Records used by the C7 counterexample: the store produced by saving `A`
(submitted first) and then `B` (submitted later). -/
def cexGameA : Game :=
  { id := "id-a", title := "A", url := "https://a.com/", description := none,
    author := none, tags := [], submittedAt := "2024-01-01T00:00:00.000Z",
    featured := false, playCount := 0, status := .active }

/-- Second, later-submitted record of the C7 counterexample. -/
def cexGameB : Game :=
  { id := "id-b", title := "B", url := "https://b.com/", description := none,
    author := none, tags := [], submittedAt := "2024-02-01T00:00:00.000Z",
    featured := false, playCount := 0, status := .active }

/-- The save-built store of the C7 counterexample. -/
def cexStore : Store := ⟨[cexGameA, cexGameB]⟩

/-- Counterexample to C7 as stated: on the localStorage implementation, a store
built by two `save`s holds the records oldest-first, and `getAll` returns them
in that stored order, so the record with the later `submittedAt` appears after
— not before — the earlier one. -/
theorem claim_C7_counterexample :
    save (fun _ => true) ⟨"A", "https://a.com", none, none, [], false, .active⟩
      "id-a" "2024-01-01T00:00:00.000Z" ⟨[]⟩ = (.ok (), ⟨[cexGameA]⟩) ∧
    save (fun _ => true) ⟨"B", "https://b.com", none, none, [], false, .active⟩
      "id-b" "2024-02-01T00:00:00.000Z" ⟨[cexGameA]⟩ = (.ok (), cexStore) ∧
    cexGameA.submittedAt.data < cexGameB.submittedAt.data ∧
    (getAllL cexStore).get? 0 = some cexGameA ∧
    (getAllL cexStore).get? 1 = some cexGameB :=
  ⟨rfl, rfl, by decide, rfl, rfl⟩

/-- C7 (amended): the Supabase `getAll` returns the rows newest-first — a
permutation of the table sorted descending by `submittedAt` — while the
localStorage `getAll` returns the stored collection in storage order, and
`save` appends the new (newest) record at the end, so save-built localStorage
collections come back oldest-first. -/
theorem claim_C7_amended :
    (∀ rows : List Game,
      List.Sorted (fun a b => b.submittedAt ≤ a.submittedAt) (sbGetAll rows) ∧
      (sbGetAll rows).Perm rows) ∧
    (∀ (fits : List Game → Bool) (inp : SaveInput) (uuid now : String) (σ : Store),
      (save fits inp uuid now σ).1 = .ok () →
      ∃ g, getAllL (save fits inp uuid now σ).2 = getAllL σ ++ [g] ∧
        g.submittedAt = now) :=
  ⟨fun rows => ⟨sortDesc_sorted rows, sortDesc_perm rows⟩,
   fun _ _ _ _ _ h => save_ok_append h⟩

/-- Witness for the amended C7 at concrete inputs. -/
theorem claim_C7_witness :
    List.Sorted (fun a b => b.submittedAt ≤ a.submittedAt)
      (sbGetAll [cexGameA, cexGameB]) ∧
    ∃ g, getAllL (save (fun _ => true)
        ⟨"A", "https://a.com", none, none, [], false, .active⟩
        "id-a" "2024-01-01T00:00:00.000Z" ⟨[]⟩).2 = getAllL ⟨[]⟩ ++ [g] ∧
      g.submittedAt = "2024-01-01T00:00:00.000Z" :=
  ⟨(claim_C7_amended.1 [cexGameA, cexGameB]).1,
   claim_C7_amended.2 (fun _ => true)
     ⟨"A", "https://a.com", none, none, [], false, .active⟩
     "id-a" "2024-01-01T00:00:00.000Z" ⟨[]⟩ rfl⟩

/-! Claim C8: tag-filter semantics. -/

theorem bool_eq_of_iff {a b : Bool} (h : a = true ↔ b = true) : a = b := by
  cases a <;> cases b <;> simp_all

theorem any_any_comm {α β : Type} (l : List α) (m : List β) (f : α → β → Bool) :
    l.any (fun a => m.any (fun b => f a b)) = m.any (fun b => l.any (fun a => f a b)) := by
  apply bool_eq_of_iff
  simp only [List.any_eq_true]
  constructor
  · rintro ⟨a, ha, b, hb, hf⟩
    exact ⟨b, hb, a, ha, hf⟩
  · rintro ⟨b, hb, a, ha, hf⟩
    exact ⟨a, ha, b, hb, hf⟩

/-- Record used by the C8 counterexample: its only tag is `a`. -/
def cexGameT : Game :=
  { id := "id-t", title := "T", url := "https://t.com/", description := none,
    author := none, tags := ["a"], submittedAt := "2024-01-01T00:00:00.000Z",
    featured := false, playCount := 0, status := .active }

/-- Counterexample to C8 as stated for the Supabase implementation: a record
with tags `["a"]` has a tag containing the requested tag `"a"`, so by the claim
the request `["a", "b"]` must return it (OR semantics); the localStorage
implementation does, but the Supabase implementation uses array containment —
the record would need to carry every requested tag — and returns nothing. -/
theorem claim_C8_counterexample :
    matchesTagsL (some ["a", "b"]) cexGameT = true ∧
    getFilteredL ⟨[cexGameT]⟩ ⟨none, some ["a", "b"], none, none⟩ = [cexGameT] ∧
    sbGetFiltered [cexGameT] ⟨none, some ["a", "b"], none, none⟩ = [] := by
  refine ⟨by decide, by decide, by decide⟩

/-- C8 (amended): for a nonempty list of requested tags, the localStorage
`getFiltered` returns exactly the records having at least one tag that
contains, case-insensitively, at least one requested tag (OR semantics); the
Supabase `getFiltered` instead returns (newest-first) exactly the records whose
tags contain every requested tag exactly (array containment, AND semantics). -/
theorem claim_C8_amended (games : List Game) (ts : List String) (hne : ts ≠ []) :
    getFilteredL ⟨games⟩ ⟨none, some ts, none, none⟩ =
      games.filter (fun g =>
        g.tags.any (fun gt => ts.any (fun ft => containsSubS (lowerS ft) (lowerS gt)))) ∧
    sbGetFiltered games ⟨none, some ts, none, none⟩ =
      sortDescBySubmitted (games.filter (fun g => sbContainsTags ts g)) := by
  have hts : ts.isEmpty = false := by
    cases ts
    · exact absurd rfl hne
    · rfl
  constructor
  · unfold getFilteredL getAllL
    apply List.filter_congr
    intro g _
    simp only [matchesStatus, matchesFeatured, matchesSearch, matchesTagsL, hts,
      Bool.true_and, Bool.false_eq_true, if_false]
    exact any_any_comm ts g.tags (fun ft gt => containsSubS (lowerS ft) (lowerS gt))
  · unfold sbGetFiltered
    simp only [hts]
    congr 1

/-- Witness for the amended C8 at concrete inputs. -/
theorem claim_C8_witness :
    getFilteredL ⟨[cexGameT]⟩ ⟨none, some ["a"], none, none⟩ =
      [cexGameT].filter (fun g =>
        g.tags.any (fun gt => ["a"].any (fun ft =>
          containsSubS (lowerS ft) (lowerS gt)))) ∧
    sbGetFiltered [cexGameT] ⟨none, some ["a"], none, none⟩ =
      sortDescBySubmitted ([cexGameT].filter (fun g => sbContainsTags ["a"] g)) :=
  claim_C8_amended [cexGameT] ["a"] (by decide)

end AIArcade
